import Mathlib

/-!
# Darwin: color mixing on a fixed grid

A shallow embedding of `src/main.cpp` (classes `PlayField`, `StatsGame`,
`UIGame`) and the properties of its grid, its mixing step and its driver loop.

Conventions of the embedding.

* `rand()` is the only source of nondeterminism.  Every function that calls it
  takes the list of values the next calls return and gives back the unread
  rest; when the list is used up the function stops with `Fault.noSample`: the
  C++ loop would still be sampling.
* An array access outside `field[ROWS * COLS]` is undefined behaviour in C++;
  here it stops the computation with `Fault.outOfBounds`.
* Coordinates are natural numbers: every call site passes a loop counter or a
  result of `GetRandomCol` / `GetRandomRow`, none of which is negative.
* The mutex only serialises the accessors; the embedding is the sequential
  semantics of one thread.
-/

namespace Darwin

/-- The enum `Color` (main.cpp:6-13). -/
inductive Color where
  | UNSET
  | RED
  | GREEN
  | BLUE
  | YELLOW
  deriving DecidableEq, Repr

open Color

instance : Fintype Color :=
  ⟨{UNSET, RED, GREEN, BLUE, YELLOW}, fun c => by cases c <;> simp⟩

/-- The macro `ROWS` (main.cpp:15). -/
def ROWS : Nat := 10

/-- The macro `COLS` (main.cpp:16). -/
def COLS : Nat := 10

/-- The ways a run of the embedded code stops without a result. -/
inductive Fault where
  /-- an index outside `field[ROWS * COLS]` -/
  | outOfBounds
  /-- the given `rand()` values are used up while a loop is still sampling -/
  | noSample
  /-- the iteration budget of the driver loop is used up -/
  | outOfFuel
  /-- `round++` at `INT_MAX` -/
  | intOverflow
  /-- a division by zero in `rand() / ((RAND_MAX + 1u) / ROWS)`, which needs other
  values of the macros than those of main.cpp -/
  | divByZero
  deriving DecidableEq, Repr

/-- What the C++ implementation leaves open: the library constant `RAND_MAX`
and the order in which the two arguments of
`GetField(GetRandomCol(), GetRandomRow())` (main.cpp:102) are evaluated. -/
structure Impl where
  RAND_MAX : Nat
  colFirst : Bool

/-- The largest `int` (32 bits). -/
def INT_MAX : Nat := 2147483647

/-- The class `PlayField` (main.cpp:21-28): the array `field[ROWS * COLS]`. -/
structure PlayField where
  field : Fin (ROWS * COLS) → Color

/-- The constructor `PlayField() : field{UNSET}` (main.cpp:28): the first
element is `UNSET` and the others are value-initialised, which is `UNSET` too. -/
def PlayField.new : PlayField := ⟨fun _ => UNSET⟩

/-- `PlayField::GetField` (main.cpp:30-34). -/
def GetField (p : PlayField) (x y : Nat) : Except Fault Color :=
  if h : x + y * COLS < ROWS * COLS then .ok (p.field ⟨x + y * COLS, h⟩)
  else .error .outOfBounds

/-- `PlayField::SetField` (main.cpp:36-40). -/
def SetField (p : PlayField) (x y : Nat) (val : Color) : Except Fault PlayField :=
  if h : x + y * COLS < ROWS * COLS then
    .ok ⟨Function.update p.field ⟨x + y * COLS, h⟩ val⟩
  else .error .outOfBounds

/-- `PlayField::GetRandomRow` (main.cpp:73) on the value `r` of `rand()`:
`RAND_MAX + 1u` is 32-bit unsigned arithmetic. -/
def GetRandomRow (I : Impl) (r : Nat) : Nat :=
  r / (((I.RAND_MAX + 1) % 2 ^ 32) / ROWS)

/-- `PlayField::GetRandomCol` (main.cpp:75) on the value `r` of `rand()`. -/
def GetRandomCol (I : Impl) (r : Nat) : Nat :=
  r / (((I.RAND_MAX + 1) % 2 ^ 32) / COLS)

/-- The do-while of `InitializeWithRandomColors` (main.cpp:62-67): sample
`x`, then `y`, until the cell read is `UNSET`; gives `x`, `y` and the unread
samples. -/
def InitializeWithRandomColors.sample (I : Impl) (p : PlayField) :
    List Nat → Except Fault (Nat × Nat × List Nat)
  | a :: b :: rest =>
    match GetField p (GetRandomCol I a) (GetRandomRow I b) with
    | .error e => .error e
    | .ok oldVal =>
      if oldVal ≠ UNSET then InitializeWithRandomColors.sample I p rest
      else .ok (GetRandomCol I a, GetRandomRow I b, rest)
  | _ => .error .noSample

/-- The loop over `j` of `InitializeWithRandomColors` (main.cpp:58-69) with
`n` iterations left. -/
def InitializeWithRandomColors.place (I : Impl) (c : Color) :
    Nat → PlayField → List Nat → Except Fault (PlayField × List Nat)
  | 0, p, rs => .ok (p, rs)
  | n + 1, p, rs =>
    match InitializeWithRandomColors.sample I p rs with
    | .error e => .error e
    | .ok (x, y, rest) =>
      match SetField p x y c with
      | .error e => .error e
      | .ok p1 => InitializeWithRandomColors.place I c n p1 rest

/-- The loop over `cCounter` of `InitializeWithRandomColors` (main.cpp:55-70)
on the colors still to place. -/
def InitializeWithRandomColors.colors (I : Impl) :
    List Color → PlayField → List Nat → Except Fault (PlayField × List Nat)
  | [], p, rs => .ok (p, rs)
  | c :: cs, p, rs =>
    match InitializeWithRandomColors.place I c (ROWS * COLS / 4) p rs with
    | .error e => .error e
    | .ok (p1, rest) => InitializeWithRandomColors.colors I cs p1 rest

/-- `PlayField::InitializeWithRandomColors` (main.cpp:53-71): `cCounter` runs
from `RED` to `YELLOW`. -/
def InitializeWithRandomColors (I : Impl) (p : PlayField) (rs : List Nat) :
    Except Fault (PlayField × List Nat) :=
  InitializeWithRandomColors.colors I [RED, GREEN, BLUE, YELLOW] p rs

/-- The loop over `x` of `IsEnded` (main.cpp:82-88) on the columns still to
visit: `false` is the early `return false`, `true` the loop running to its
end. -/
def IsEnded.row (p : PlayField) (first : Color) (y : Nat) : List Nat → Except Fault Bool
  | [] => .ok true
  | x :: xs =>
    match GetField p x y with
    | .error e => .error e
    | .ok c => if c ≠ first then .ok false else IsEnded.row p first y xs

/-- The loop over `y` of `IsEnded` (main.cpp:80-89) on the rows still to
visit. -/
def IsEnded.rows (p : PlayField) (first : Color) : List Nat → Except Fault Bool
  | [] => .ok true
  | y :: ys =>
    match IsEnded.row p first y (List.range COLS) with
    | .error e => .error e
    | .ok false => .ok false
    | .ok true => IsEnded.rows p first ys

/-- `PlayField::IsEnded` (main.cpp:77-91). -/
def IsEnded (p : PlayField) : Except Fault Bool :=
  match GetField p 0 0 with
  | .error e => .error e
  | .ok first => IsEnded.rows p first (List.range ROWS)

/-- The coordinate read by one `GetField(GetRandomCol(), GetRandomRow())`
(main.cpp:102) when `rand()` returns `a` and then `b`. -/
def DoRound.coord (I : Impl) (a b : Nat) : Nat × Nat :=
  if I.colFirst then (GetRandomCol I a, GetRandomRow I b)
  else (GetRandomCol I b, GetRandomRow I a)

/-- The do-while of `DoRound` (main.cpp:100-103): sample a coordinate until the
cell read is not `UNSET`; gives the value read and the unread samples. -/
def DoRound.source (I : Impl) (p : PlayField) : List Nat → Except Fault (Color × List Nat)
  | a :: b :: rest =>
    match GetField p (DoRound.coord I a b).1 (DoRound.coord I a b).2 with
    | .error e => .error e
    | .ok val => if val = UNSET then DoRound.source I p rest else .ok (val, rest)
  | _ => .error .noSample

/-- `PlayField::DoRound` (main.cpp:93-105). -/
def DoRound (I : Impl) (p : PlayField) : List Nat → Except Fault (PlayField × List Nat)
  | a :: b :: rest =>
    match SetField p (GetRandomCol I a) (GetRandomRow I b) UNSET with
    | .error e => .error e
    | .ok p1 =>
      match DoRound.source I p1 rest with
      | .error e => .error e
      | .ok (val, rest1) =>
        match SetField p1 (GetRandomCol I a) (GetRandomRow I b) val with
        | .error e => .error e
        | .ok p2 => .ok (p2, rest1)
  | _ => .error .noSample

/-- The members of `UIGame` (main.cpp:165-169). -/
structure UIGame where
  round : Nat
  quit : Bool
  finished : Bool
  playField : PlayField

/-- The constructor `UIGame()` (main.cpp:172). -/
def UIGame.new : UIGame := ⟨0, false, false, PlayField.new⟩

/-- The body of the loop of `UIGame::Calc` (main.cpp:178-187); the sleep has no
effect on the state. -/
def UIGame.Calc.body (I : Impl) (g : UIGame) (rs : List Nat) :
    Except Fault (UIGame × List Nat) :=
  match IsEnded g.playField with
  | .error e => .error e
  | .ok false =>
    match DoRound I g.playField rs with
    | .error e => .error e
    | .ok (p1, rest) =>
      if g.round < INT_MAX then .ok ({ g with playField := p1, round := g.round + 1 }, rest)
      else .error .intOverflow
  | .ok true => .ok ({ g with finished := true }, rs)

/-- `UIGame::Calc` (main.cpp:174-189) with a budget of `fuel` iterations: the
loop condition `!finished && !quit` is evaluated first, and an iteration that
is due with no budget left stops with `Fault.outOfFuel`.  The third component
of the result counts the iterations executed; it is not part of the C++
state. -/
def UIGame.Calc (I : Impl) : Nat → UIGame → List Nat → Except Fault (UIGame × List Nat × Nat)
  | 0, g, rs =>
    if !g.finished && !g.quit then .error .outOfFuel else .ok (g, rs, 0)
  | fuel + 1, g, rs =>
    if !g.finished && !g.quit then
      match UIGame.Calc.body I g rs with
      | .error e => .error e
      | .ok (g1, rest) =>
        match UIGame.Calc I fuel g1 rest with
        | .error e => .error e
        | .ok (g2, rest2, iterations) => .ok (g2, rest2, iterations + 1)
    else .ok (g, rs, 0)

/-- The members of `StatsGame` (main.cpp:142-144). -/
structure StatsGame where
  playField : PlayField
  runde : Nat

/-- The default constructor of `StatsGame`: `runde = 0` (main.cpp:144). -/
def StatsGame.new : StatsGame := ⟨PlayField.new, 0⟩

/-- The loop of `StatsGame::DoGame` (main.cpp:150-154) with a budget of `fuel`
iterations: the loop condition `!playField.IsEnded()` is evaluated first, then
`runde++`, then `DoRound`. -/
def StatsGame.DoGame.loop (I : Impl) :
    Nat → StatsGame → List Nat → Except Fault (StatsGame × List Nat)
  | 0, s, rs =>
    match IsEnded s.playField with
    | .error e => .error e
    | .ok true => .ok (s, rs)
    | .ok false => .error .outOfFuel
  | fuel + 1, s, rs =>
    match IsEnded s.playField with
    | .error e => .error e
    | .ok true => .ok (s, rs)
    | .ok false =>
      if s.runde < INT_MAX then
        match DoRound I s.playField rs with
        | .error e => .error e
        | .ok (p1, rest) => StatsGame.DoGame.loop I fuel ⟨p1, s.runde + 1⟩ rest
      else .error .intOverflow

/-- `StatsGame::DoGame` (main.cpp:147-155). -/
def StatsGame.DoGame (I : Impl) (fuel : Nat) (s : StatsGame) (rs : List Nat) :
    Except Fault (StatsGame × List Nat) :=
  match InitializeWithRandomColors I s.playField rs with
  | .error e => .error e
  | .ok (p, rest) => StatsGame.DoGame.loop I fuel ⟨p, s.runde⟩ rest

/-- `StatsGame::GetRunden` (main.cpp:157-160). -/
def StatsGame.GetRunden (s : StatsGame) : Nat := s.runde

/-! ## Initialization with other values of the macros -/

/-- `PlayField::GetField` (main.cpp:30-34) on the array `field[R * C]`, that is
with the macros `ROWS` and `COLS` defined as `R` and `C`. -/
def GetFieldOn (R C : Nat) (f : Fin (R * C) → Color) (x y : Nat) : Except Fault Color :=
  if h : x + y * C < R * C then .ok (f ⟨x + y * C, h⟩) else .error .outOfBounds

/-- `PlayField::SetField` (main.cpp:36-40) with `ROWS` and `COLS` defined as `R`
and `C`. -/
def SetFieldOn (R C : Nat) (f : Fin (R * C) → Color) (x y : Nat) (val : Color) :
    Except Fault (Fin (R * C) → Color) :=
  if h : x + y * C < R * C then .ok (Function.update f ⟨x + y * C, h⟩ val)
  else .error .outOfBounds

/-- `rand() / ((RAND_MAX + 1u) / N)` (main.cpp:73, 75) on the value `r` of
`rand()`, for `N` the value of `ROWS` or `COLS`: either division may be by
zero. -/
def GetRandomOn (I : Impl) (N : Nat) (r : Nat) : Except Fault Nat :=
  if N = 0 ∨ ((I.RAND_MAX + 1) % 2 ^ 32) / N = 0 then .error .divByZero
  else .ok (r / (((I.RAND_MAX + 1) % 2 ^ 32) / N))

/-- The do-while of `InitializeWithRandomColors` (main.cpp:62-67) with `ROWS`
and `COLS` defined as `R` and `C`. -/
def InitializeWithRandomColorsOn.sample (R C : Nat) (I : Impl) (f : Fin (R * C) → Color) :
    List Nat → Except Fault (Nat × Nat × List Nat)
  | a :: b :: rest =>
    match GetRandomOn I C a with
    | .error e => .error e
    | .ok x =>
      match GetRandomOn I R b with
      | .error e => .error e
      | .ok y =>
        match GetFieldOn R C f x y with
        | .error e => .error e
        | .ok oldVal =>
          if oldVal ≠ UNSET then InitializeWithRandomColorsOn.sample R C I f rest
          else .ok (x, y, rest)
  | _ => .error .noSample

/-- The loop over `j` of `InitializeWithRandomColors` (main.cpp:58-69) with
`ROWS` and `COLS` defined as `R` and `C` and `n` iterations left. -/
def InitializeWithRandomColorsOn.place (R C : Nat) (I : Impl) (c : Color) :
    Nat → (Fin (R * C) → Color) → List Nat → Except Fault ((Fin (R * C) → Color) × List Nat)
  | 0, f, rs => .ok (f, rs)
  | n + 1, f, rs =>
    match InitializeWithRandomColorsOn.sample R C I f rs with
    | .error e => .error e
    | .ok (x, y, rest) =>
      match SetFieldOn R C f x y c with
      | .error e => .error e
      | .ok f1 => InitializeWithRandomColorsOn.place R C I c n f1 rest

/-- The loop over `cCounter` of `InitializeWithRandomColors` (main.cpp:55-70)
with `ROWS` and `COLS` defined as `R` and `C`. -/
def InitializeWithRandomColorsOn.colors (R C : Nat) (I : Impl) :
    List Color → (Fin (R * C) → Color) → List Nat →
      Except Fault ((Fin (R * C) → Color) × List Nat)
  | [], f, rs => .ok (f, rs)
  | c :: cs, f, rs =>
    match InitializeWithRandomColorsOn.place R C I c (R * C / 4) f rs with
    | .error e => .error e
    | .ok (f1, rest) => InitializeWithRandomColorsOn.colors R C I cs f1 rest

/-- `PlayField::InitializeWithRandomColors` (main.cpp:53-71) with `ROWS` and
`COLS` defined as `R` and `C`. -/
def InitializeWithRandomColorsOn (R C : Nat) (I : Impl) (f : Fin (R * C) → Color)
    (rs : List Nat) : Except Fault ((Fin (R * C) → Color) × List Nat) :=
  InitializeWithRandomColorsOn.colors R C I [RED, GREEN, BLUE, YELLOW] f rs

/-- Every sample gives a column in `[0, COLS)` and a row in `[0, ROWS)`. -/
def InRange (I : Impl) (rs : List Nat) : Prop :=
  ∀ r ∈ rs, GetRandomCol I r < COLS ∧ GetRandomRow I r < ROWS

/-- The number of cells of the grid that hold the color `c`. -/
def countColor (p : PlayField) (c : Color) : Nat :=
  (Finset.univ.filter fun i => p.field i = c).card

/-- The colors other than `UNSET` that some cell of the grid holds. -/
def colorsPresent (p : PlayField) : Finset Color :=
  Finset.univ.filter fun c => c ≠ UNSET ∧ ∃ i, p.field i = c

/-- The `rand()` values behind a list of sampled pairs. -/
def DoRound.samples : List (Nat × Nat) → List Nat
  | [] => []
  | q :: qs => q.1 :: q.2 :: DoRound.samples qs

/-- The cell that the source loop of `DoRound` reads for the pair `q` of `rand()` values. -/
def DoRound.read (I : Impl) (p : PlayField) (q : Nat × Nat) : Except Fault Color :=
  GetField p (DoRound.coord I q.1 q.2).1 (DoRound.coord I q.1 q.2).2

/-- `DoRound.times I n`: `n` calls of `DoRound` in a row. -/
def DoRound.times (I : Impl) : Nat → PlayField → List Nat → Except Fault (PlayField × List Nat)
  | 0, p, rs => .ok (p, rs)
  | n + 1, p, rs =>
    match DoRound I p rs with
    | .error e => .error e
    | .ok (p1, rest) => DoRound.times I n p1 rest

/-- The grids of a run: the one `InitializeWithRandomColors` builds from the
freshly constructed grid, and every grid a completed `DoRound` makes of one. -/
inductive Reachable (I : Impl) : PlayField → Prop
  | init (rs : List Nat) (p : PlayField) (rest : List Nat) :
      InitializeWithRandomColors I PlayField.new rs = .ok (p, rest) → Reachable I p
  | round (p : PlayField) (rs : List Nat) (p2 : PlayField) (rest : List Nat) :
      Reachable I p → DoRound I p rs = .ok (p2, rest) → Reachable I p2

/-- `Rounds I k (p, rs) (p2, rest)`: `k` calls of `DoRound`, each on a grid on
which `IsEnded` is false, lead from the grid `p` with the samples `rs` to the
grid `p2` with the samples `rest` left. -/
inductive Rounds (I : Impl) : Nat → PlayField × List Nat → PlayField × List Nat → Prop
  | zero (s : PlayField × List Nat) : Rounds I 0 s s
  | succ (k : Nat) (p : PlayField) (rs : List Nat) (p1 : PlayField) (rs1 : List Nat)
      (s : PlayField × List Nat) :
      IsEnded p = .ok false → DoRound I p rs = .ok (p1, rs1) → Rounds I k (p1, rs1) s →
      Rounds I (k + 1) (p, rs) s

/-- One iteration of the loop of `UIGame::Calc` (main.cpp:176-188): the loop
condition holds in the driver state `s.1` and the body, run on the samples
`s.2`, leaves the driver state `t.1` and the samples `t.2`. -/
def UIGame.Calc.step (I : Impl) (s t : UIGame × List Nat) : Prop :=
  (!s.1.finished && !s.1.quit) = true ∧ UIGame.Calc.body I s.1 s.2 = .ok t

/-- One move of a run of the driver: an iteration of the loop of `Calc`, or the
write `quit = true` of the other thread (main.cpp:212), its only write to the
driver state. -/
def UIGame.move (I : Impl) (s t : UIGame × List Nat) : Prop :=
  UIGame.Calc.step I s t ∨ t = ({ s.1 with quit := true }, s.2)

/-! ## Concrete inputs -/

/-- The implementation parameters of glibc on a 32-bit `int`, with the
arguments of a call evaluated left to right. -/
def Impl.glibc : Impl := ⟨2147483647, true⟩

/-- The `rand()` values that sample the `n` cells from index `k` on, one after
the other: `214748364 = (RAND_MAX + 1u) / COLS` for glibc. -/
def sweep : Nat → Nat → List Nat
  | _, 0 => []
  | k, n + 1 => (k % COLS) * 214748364 :: (k / COLS) * 214748364 :: sweep (k + 1) n

/-- The grid that `InitializeWithRandomColors` builds on the samples
`sweep 0 100`. -/
def initialized : PlayField :=
  match InitializeWithRandomColors Impl.glibc PlayField.new (sweep 0 100) with
  | .ok (p, _) => p
  | .error _ => PlayField.new

/-- The `rand()` values of one round on `initialized`: the target is (0, 0),
the first source sample is (0, 0) again and the second is (5, 5). -/
def roundSamples : List Nat := [0, 0, 0, 0, 1073741820, 1073741820]

/-- The grid `initialized` with the cell (0, 0) cleared. -/
def initializedCleared : PlayField :=
  match SetField initialized 0 0 UNSET with
  | .ok p => p
  | .error _ => initialized

/-- The grid that `DoRound` makes of `initialized` on `roundSamples`. -/
def afterRound : PlayField :=
  match DoRound Impl.glibc initialized roundSamples with
  | .ok (p, _) => p
  | .error _ => initialized

/-- A grid whose cells are all `RED`. -/
def uniformRed : PlayField := ⟨fun _ => RED⟩

/-- A grid whose cells are all `RED` but the cell (0, 0), which is `BLUE`. -/
def almostRed : PlayField :=
  ⟨fun i => if i.val = 0 then BLUE else RED⟩

/-- A driver state at the start of `Calc` whose grid is already uniform. -/
def terminalStart : UIGame := ⟨0, false, false, uniformRed⟩

/-- A driver state at the start of `Calc` whose grid is one round from uniform. -/
def almostStart : UIGame := ⟨0, false, false, almostRed⟩

/-- The `rand()` values of one round with target (0, 0) and source (1, 0). -/
def almostSamples : List Nat := [0, 0, 214748364, 0]

/-- The driver state `Calc` leaves from `almostStart` on `almostSamples`. -/
def almostResult : UIGame :=
  match UIGame.Calc Impl.glibc 2 almostStart almostSamples with
  | .ok (g, _) => g
  | .error _ => almostStart

/-- A driver state with the cancellation flag set. -/
def cancelledStart : UIGame := ⟨7, true, false, initialized⟩

/-- The `rand()` values of `n` rounds whose targets are the cells from index
`k` on, one after the other, each with the source (0, 0). -/
def mix : Nat → Nat → List Nat
  | _, 0 => []
  | k, n + 1 => (k % COLS) * 214748364 :: (k / COLS) * 214748364 :: 0 :: 0 :: mix (k + 1) n

/-- The grid that 75 rounds make of `initialized` on the samples `mix 25 75`. -/
def mixed : PlayField :=
  match DoRound.times Impl.glibc 75 initialized (mix 25 75) with
  | .ok (p, _) => p
  | .error _ => initialized

theorem index_lt {x y : Nat} (hx : x < COLS) (hy : y < ROWS) :
    x + y * COLS < ROWS * COLS := by
  simp only [COLS, ROWS] at *
  omega

theorem mod_add_div_COLS (n : Nat) : n % COLS + n / COLS * COLS = n := by
  simp only [COLS]
  omega

theorem index_inj {x y tx ty : Nat} (hx : x < COLS) (htx : tx < COLS)
    (e : x + y * COLS = tx + ty * COLS) : (x, y) = (tx, ty) := by
  simp only [COLS, Prod.mk.injEq] at *
  omega

theorem GetField_eq_ok {p : PlayField} {x y : Nat} {c : Color} (h : GetField p x y = .ok c) :
    ∃ hi : x + y * COLS < ROWS * COLS, p.field ⟨x + y * COLS, hi⟩ = c := by
  unfold GetField at h
  split at h
  · rename_i hi
    exact ⟨hi, by injection h⟩
  · cases h

theorem SetField_eq_ok {p p1 : PlayField} {x y : Nat} {v : Color} (h : SetField p x y v = .ok p1) :
    ∃ hi : x + y * COLS < ROWS * COLS,
      p1 = ⟨Function.update p.field ⟨x + y * COLS, hi⟩ v⟩ := by
  unfold SetField at h
  split at h
  · rename_i hi
    exact ⟨hi, by injection h with h; exact h.symm⟩
  · cases h

theorem GetField_in_range (p : PlayField) (x y : Nat) (hx : x < COLS) (hy : y < ROWS) :
    GetField p x y = .ok (p.field ⟨x + y * COLS, index_lt hx hy⟩) := by
  unfold GetField
  rw [dif_pos (index_lt hx hy)]

theorem GetField_update (p : PlayField) (i : Fin (ROWS * COLS)) (v : Color) (x y : Nat) :
    GetField ⟨Function.update p.field i v⟩ x y
      = if x + y * COLS = i.val then .ok v else GetField p x y := by
  unfold GetField
  by_cases hb : x + y * COLS < ROWS * COLS
  · simp only [hb, dite_true]
    by_cases hi : x + y * COLS = i.val
    · have : (⟨x + y * COLS, hb⟩ : Fin (ROWS * COLS)) = i := Fin.ext hi
      rw [if_pos hi, this, Function.update_same]
    · have : (⟨x + y * COLS, hb⟩ : Fin (ROWS * COLS)) ≠ i := fun e => hi (congrArg Fin.val e)
      rw [if_neg hi, Function.update_noteq this]
  · have hi : x + y * COLS ≠ i.val := fun e => hb (e ▸ i.isLt)
    simp only [hb, dite_false, if_neg hi]

theorem GetField_index (p : PlayField) (i : Fin (ROWS * COLS)) :
    i.val % COLS < COLS ∧ i.val / COLS < ROWS ∧
      GetField p (i.val % COLS) (i.val / COLS) = .ok (p.field i) := by
  have hi := i.isLt
  have e := mod_add_div_COLS i.val
  refine ⟨Nat.mod_lt _ (by decide), ?_, ?_⟩
  · simp only [ROWS, COLS] at *
    omega
  · unfold GetField
    rw [dif_pos (by rw [e]; exact hi)]
    congr 2
    exact Fin.ext e

/-- C1: for every grid, every coordinate with `x < COLS` and `y < ROWS` and
every color `v`, `SetField(x, y, v)` succeeds and `GetField(x, y)` on the grid
it leaves returns `v`. -/
theorem SetField_then_GetField (p : PlayField) (x y : Nat) (v : Color)
    (hx : x < COLS) (hy : y < ROWS) :
    ∃ p1, SetField p x y v = .ok p1 ∧ GetField p1 x y = .ok v := by
  refine ⟨⟨Function.update p.field ⟨x + y * COLS, index_lt hx hy⟩ v⟩, ?_, ?_⟩
  · simp [SetField, index_lt hx hy]
  · simp [GetField, index_lt hx hy]

theorem SetField_then_GetField_witness :
    ∃ p1, SetField PlayField.new 3 7 BLUE = .ok p1 ∧ GetField p1 3 7 = .ok BLUE :=
  SetField_then_GetField PlayField.new 3 7 BLUE (by decide) (by decide)

/-! ## Initialization -/

theorem countColor_update (p : PlayField) (i : Fin (ROWS * COLS)) (v c : Color) :
    countColor ⟨Function.update p.field i v⟩ c + (if p.field i = c then 1 else 0)
      = countColor p c + (if v = c then 1 else 0) := by
  obtain ⟨f⟩ := p
  unfold countColor
  simp only [Finset.card_filter]
  rw [← Finset.add_sum_erase Finset.univ (fun j => if Function.update f i v j = c then 1 else 0)
      (Finset.mem_univ i),
    ← Finset.add_sum_erase Finset.univ (fun j => if f j = c then 1 else 0) (Finset.mem_univ i)]
  have h : ∀ j ∈ Finset.univ.erase i,
      (if Function.update f i v j = c then 1 else 0) = (if f j = c then 1 else 0) := by
    intro j hj
    rw [Function.update_noteq (Finset.ne_of_mem_erase hj)]
  rw [Finset.sum_congr rfl h]
  simp
  omega

theorem sample_reads_UNSET (I : Impl) (p : PlayField) :
    ∀ (rs : List Nat) (x y : Nat) (rest : List Nat),
      InitializeWithRandomColors.sample I p rs = .ok (x, y, rest) →
      GetField p x y = .ok UNSET := by
  intro rs
  induction rs using InitializeWithRandomColors.sample.induct I p with
  | case1 a b rest e he =>
    intro x y r h
    simp [InitializeWithRandomColors.sample, he] at h
  | case2 a b rest oldVal hg hne ih =>
    intro x y r h
    simp only [InitializeWithRandomColors.sample, hg] at h
    rw [if_pos hne] at h
    exact ih x y r h
  | case3 a b rest oldVal hg hne =>
    intro x y r h
    simp only [InitializeWithRandomColors.sample, hg] at h
    rw [if_neg hne] at h
    simp only [Except.ok.injEq, Prod.mk.injEq] at h
    obtain ⟨rfl, rfl, rfl⟩ := h
    rw [hg, not_not.mp hne]
  | case4 rs hrs =>
    intro x y r h
    unfold InitializeWithRandomColors.sample at h
    split at h
    · exact absurd rfl (hrs _ _ _)
    · cases h

theorem place_count (I : Impl) (c : Color) (hc : c ≠ UNSET) :
    ∀ (n : Nat) (p : PlayField) (rs : List Nat) (p1 : PlayField) (rest : List Nat),
      InitializeWithRandomColors.place I c n p rs = .ok (p1, rest) →
      countColor p1 c = countColor p c + n ∧
      countColor p1 UNSET + n = countColor p UNSET ∧
      ∀ d, d ≠ c → d ≠ UNSET → countColor p1 d = countColor p d := by
  intro n
  induction n with
  | zero =>
    intro p rs p1 rest h
    simp only [InitializeWithRandomColors.place, Except.ok.injEq, Prod.mk.injEq] at h
    obtain ⟨rfl, -⟩ := h
    simp
  | succ n ih =>
    intro p rs p1 rest h
    simp only [InitializeWithRandomColors.place] at h
    cases hs : InitializeWithRandomColors.sample I p rs with
    | error e => simp [hs] at h
    | ok r =>
      obtain ⟨x, y, rest0⟩ := r
      rw [hs] at h
      simp only at h
      cases hset : SetField p x y c with
      | error e => simp [hset] at h
      | ok p0 =>
        rw [hset] at h
        simp only at h
        obtain ⟨hi, hread⟩ := GetField_eq_ok (sample_reads_UNSET I p _ _ _ _ hs)
        obtain ⟨_, hp0⟩ := SetField_eq_ok hset
        obtain ⟨h1, h2, h3⟩ := ih _ _ _ _ h
        have e1 := countColor_update p ⟨x + y * COLS, hi⟩ c c
        have e2 := countColor_update p ⟨x + y * COLS, hi⟩ c UNSET
        rw [hread, ← hp0] at e1 e2
        simp only [if_neg hc, if_neg (Ne.symm hc), if_true] at e1 e2
        refine ⟨by omega, by omega, ?_⟩
        intro d hdc hd
        have e3 := countColor_update p ⟨x + y * COLS, hi⟩ c d
        rw [hread, ← hp0, if_neg (Ne.symm hd), if_neg (Ne.symm hdc)] at e3
        rw [h3 d hdc hd]
        simpa using e3

theorem countColor_new (c : Color) :
    countColor PlayField.new c = if c = UNSET then ROWS * COLS else 0 := by
  unfold countColor PlayField.new
  by_cases h : c = UNSET
  · subst h
    simp
  · simp [h, Ne.symm h]

theorem initialized_eq :
    InitializeWithRandomColors Impl.glibc PlayField.new (sweep 0 100) = .ok (initialized, []) :=
  rfl

theorem InitializeWithRandomColors_counts (I : Impl) (rs : List Nat) (p1 : PlayField)
    (rest : List Nat)
    (h : InitializeWithRandomColors I PlayField.new rs = .ok (p1, rest)) :
    countColor p1 RED = ROWS * COLS / 4 ∧ countColor p1 GREEN = ROWS * COLS / 4 ∧
    countColor p1 BLUE = ROWS * COLS / 4 ∧ countColor p1 YELLOW = ROWS * COLS / 4 ∧
    ROWS * COLS / 4 = 25 ∧ countColor p1 UNSET = 0 ∧ ∀ i, p1.field i ≠ UNSET := by
  simp only [InitializeWithRandomColors, InitializeWithRandomColors.colors] at h
  split at h
  · cases h
  · rename_i pr r1 hr
    split at h
    · cases h
    · rename_i pg r2 hg
      split at h
      · cases h
      · rename_i pb r3 hb
        split at h
        · cases h
        · rename_i py r4 hy
          simp only [Except.ok.injEq, Prod.mk.injEq] at h
          obtain ⟨rfl, -⟩ := h
          obtain ⟨a1, a2, a3⟩ := place_count I RED (by decide) _ _ _ _ _ hr
          obtain ⟨b1, b2, b3⟩ := place_count I GREEN (by decide) _ _ _ _ _ hg
          obtain ⟨c1, c2, c3⟩ := place_count I BLUE (by decide) _ _ _ _ _ hb
          obtain ⟨d1, d2, d3⟩ := place_count I YELLOW (by decide) _ _ _ _ _ hy
          have n0 := countColor_new UNSET
          have n1 := countColor_new RED
          have n2 := countColor_new GREEN
          have n3 := countColor_new BLUE
          have n4 := countColor_new YELLOW
          simp only [if_true, show ¬ RED = UNSET by decide, show ¬ GREEN = UNSET by decide,
            show ¬ BLUE = UNSET by decide, show ¬ YELLOW = UNSET by decide, if_false]
            at n0 n1 n2 n3 n4
          have r1 := b3 RED (by decide) (by decide)
          have r2 := c3 RED (by decide) (by decide)
          have r3 := d3 RED (by decide) (by decide)
          have g0 := a3 GREEN (by decide) (by decide)
          have g2 := c3 GREEN (by decide) (by decide)
          have g3 := d3 GREEN (by decide) (by decide)
          have u0 := a3 BLUE (by decide) (by decide)
          have u1 := b3 BLUE (by decide) (by decide)
          have u3 := d3 BLUE (by decide) (by decide)
          have y0 := a3 YELLOW (by decide) (by decide)
          have y1 := b3 YELLOW (by decide) (by decide)
          have y2 := c3 YELLOW (by decide) (by decide)
          have hu : countColor py UNSET = 0 := by
            simp only [ROWS, COLS] at *
            omega
          refine ⟨?_, ?_, ?_, ?_, by decide, hu, ?_⟩
          · simp only [ROWS, COLS] at *
            omega
          · simp only [ROWS, COLS] at *
            omega
          · simp only [ROWS, COLS] at *
            omega
          · simp only [ROWS, COLS] at *
            omega
          · intro i hi
            have : i ∈ Finset.univ.filter fun j => py.field j = UNSET :=
              Finset.mem_filter.mpr ⟨Finset.mem_univ i, hi⟩
            rw [Finset.card_eq_zero.mp hu] at this
            exact absurd this (Finset.not_mem_empty i)

/-- C2: on every sample sequence on which `InitializeWithRandomColors`
completes from the freshly constructed grid (the in-range ones among them),
each of `RED`, `GREEN`, `BLUE`, `YELLOW` is held by exactly `ROWS * COLS / 4`
cells, which is 25, and no cell is `UNSET`. -/
theorem InitializeWithRandomColors_balanced (I : Impl) (rs : List Nat) (p1 : PlayField)
    (rest : List Nat)
    (h : InitializeWithRandomColors I PlayField.new rs = .ok (p1, rest)) :
    countColor p1 RED = ROWS * COLS / 4 ∧ countColor p1 GREEN = ROWS * COLS / 4 ∧
    countColor p1 BLUE = ROWS * COLS / 4 ∧ countColor p1 YELLOW = ROWS * COLS / 4 ∧
    ROWS * COLS / 4 = 25 ∧ countColor p1 UNSET = 0 ∧ ∀ i, p1.field i ≠ UNSET :=
  InitializeWithRandomColors_counts I rs p1 rest h

theorem InitializeWithRandomColors_balanced_witness :
    countColor initialized RED = ROWS * COLS / 4 ∧
    countColor initialized GREEN = ROWS * COLS / 4 ∧
    countColor initialized BLUE = ROWS * COLS / 4 ∧
    countColor initialized YELLOW = ROWS * COLS / 4 ∧
    ROWS * COLS / 4 = 25 ∧ countColor initialized UNSET = 0 ∧
    ∀ i, initialized.field i ≠ UNSET :=
  InitializeWithRandomColors_balanced Impl.glibc (sweep 0 100) initialized [] initialized_eq

/-! ## The termination check -/

theorem IsEnded_row (p : PlayField) (first : Color) (y : Nat) (hy : y < ROWS) :
    ∀ xs : List Nat, (∀ x ∈ xs, x < COLS) →
      ∃ b, IsEnded.row p first y xs = .ok b ∧
        (b = true ↔ ∀ x ∈ xs, GetField p x y = .ok first) := by
  intro xs
  induction xs with
  | nil => exact fun _ => ⟨true, rfl, by simp⟩
  | cons x xs ih =>
    intro hxs
    have hx := hxs x (List.mem_cons_self _ _)
    obtain ⟨b, hb, hiff⟩ := ih fun x' hx' => hxs x' (List.mem_cons_of_mem _ hx')
    simp only [IsEnded.row, GetField_in_range p x y hx hy, List.forall_mem_cons, Except.ok.injEq]
    by_cases hc : p.field ⟨x + y * COLS, index_lt hx hy⟩ = first
    · rw [if_neg (not_not.mpr hc)]
      exact ⟨b, hb, by rw [hiff]; simp [hc]⟩
    · rw [if_pos hc]
      exact ⟨false, rfl, by simp [hc]⟩

theorem IsEnded_rows (p : PlayField) (first : Color) :
    ∀ ys : List Nat, (∀ y ∈ ys, y < ROWS) →
      ∃ b, IsEnded.rows p first ys = .ok b ∧
        (b = true ↔ ∀ y ∈ ys, ∀ x ∈ List.range COLS, GetField p x y = .ok first) := by
  intro ys
  induction ys with
  | nil => exact fun _ => ⟨true, rfl, by simp⟩
  | cons y ys ih =>
    intro hys
    have hy := hys y (List.mem_cons_self _ _)
    obtain ⟨b, hb, hiff⟩ := ih fun y' hy' => hys y' (List.mem_cons_of_mem _ hy')
    obtain ⟨b1, hb1, hiff1⟩ := IsEnded_row p first y hy (List.range COLS)
      (fun x hx => List.mem_range.mp hx)
    simp only [IsEnded.rows, hb1, List.forall_mem_cons]
    cases b1 with
    | false =>
      refine ⟨false, rfl, ?_⟩
      simp only [Bool.false_eq_true, false_iff, not_and]
      intro h
      exact absurd (hiff1.mpr h) (by simp)
    | true =>
      refine ⟨b, hb, ?_⟩
      rw [hiff]
      exact ⟨fun h => ⟨hiff1.mp rfl, h⟩, fun h => h.2⟩

theorem IsEnded_spec (p : PlayField) :
    (∃ b, IsEnded p = .ok b ∧
      (b = true ↔ ∀ x y, x < COLS → y < ROWS → GetField p x y = GetField p 0 0)) ∧
    (∀ c, (∀ i, p.field i = c) → IsEnded p = .ok true) ∧
    ((∃ i j, p.field i ≠ p.field j) → IsEnded p = .ok false) := by
  have h0 := GetField_in_range p 0 0 (by decide) (by decide)
  obtain ⟨b, hb, hiff⟩ := IsEnded_rows p (p.field ⟨0 + 0 * COLS, index_lt (by decide) (by decide)⟩)
    (List.range ROWS) (fun y hy => List.mem_range.mp hy)
  have hE : IsEnded p = .ok b := by
    unfold IsEnded
    rw [h0]
    exact hb
  have hall : b = true ↔ ∀ x y, x < COLS → y < ROWS → GetField p x y = GetField p 0 0 := by
    rw [hiff, h0]
    constructor
    · intro h x y hx hy
      exact h y (List.mem_range.mpr hy) x (List.mem_range.mpr hx)
    · intro h y hy x hx
      exact h x y (List.mem_range.mp hx) (List.mem_range.mp hy)
  refine ⟨⟨b, hE, hall⟩, ?_, ?_⟩
  · intro c hc
    rw [hE, hall.mpr]
    intro x y hx hy
    rw [GetField_in_range p x y hx hy, h0, hc, hc]
  · rintro ⟨i, j, hij⟩
    rw [hE]
    cases b with
    | false => rfl
    | true =>
      exfalso
      apply hij
      have h := hall.mp rfl
      obtain ⟨hxi, hyi, hgi⟩ := GetField_index p i
      obtain ⟨hxj, hyj, hgj⟩ := GetField_index p j
      have e : (Except.ok (p.field i) : Except Fault Color) = .ok (p.field j) := by
        rw [← hgi, ← hgj, h _ _ hxi hyi, h _ _ hxj hyj]
      injection e

theorem IsEnded_true_iff (p : PlayField) :
    IsEnded p = .ok true ↔ ∀ i j, p.field i = p.field j := by
  obtain ⟨-, huni, hdiff⟩ := IsEnded_spec p
  constructor
  · intro h i j
    by_contra hij
    rw [hdiff ⟨i, j, hij⟩] at h
    cases h
  · intro h
    exact huni (p.field ⟨0, by decide⟩) fun i => h i _

theorem IsEnded_total (p : PlayField) : IsEnded p = .ok true ∨ IsEnded p = .ok false := by
  obtain ⟨⟨b, hb, -⟩, -, -⟩ := IsEnded_spec p
  cases b with
  | true => exact Or.inl hb
  | false => exact Or.inr hb

/-- C5: `IsEnded` returns a result on every grid, and the result is `true`
exactly when every valid coordinate reads the same as (0, 0).  So it is `true`
on a grid whose cells all hold one color and `false` on a grid two of whose
cells differ. -/
theorem IsEnded_iff_all_equal_first (p : PlayField) :
    (∃ b, IsEnded p = .ok b ∧
      (b = true ↔ ∀ x y, x < COLS → y < ROWS → GetField p x y = GetField p 0 0)) ∧
    (∀ c, (∀ i, p.field i = c) → IsEnded p = .ok true) ∧
    ((∃ i j, p.field i ≠ p.field j) → IsEnded p = .ok false) :=
  IsEnded_spec p

theorem IsEnded_iff_all_equal_first_witness :
    IsEnded uniformRed = .ok true ∧ IsEnded initialized = .ok false :=
  ⟨(IsEnded_iff_all_equal_first uniformRed).2.1 RED (fun _ => rfl),
    (IsEnded_iff_all_equal_first initialized).2.2
      ⟨⟨0, by decide⟩, ⟨99, by decide⟩, by decide⟩⟩

/-! ## The random coordinates -/

/-- C6, on the code: `GetRandomCol` and `GetRandomRow` give `COLS` and `ROWS`,
one past the last valid coordinate, when `rand()` returns `RAND_MAX`, for
`RAND_MAX = 2147483647` and for `RAND_MAX = 32767`; with 2147483647 the column
is in range exactly for the values below 2147483640; and a `DoRound` that draws
`RAND_MAX` twice indexes the array at 110, outside `field[100]`. -/
theorem GetRandom_reaches_COLS :
    GetRandomCol Impl.glibc 2147483647 = COLS ∧ GetRandomRow Impl.glibc 2147483647 = ROWS ∧
    GetRandomCol ⟨32767, true⟩ 32767 = COLS ∧ GetRandomRow ⟨32767, true⟩ 32767 = ROWS ∧
    (∀ r, GetRandomCol Impl.glibc r < COLS ↔ r < 2147483640) ∧
    2147483647 ≤ Impl.glibc.RAND_MAX ∧
    GetRandomCol Impl.glibc 2147483647 + GetRandomRow Impl.glibc 2147483647 * COLS = 110 ∧
    SetField initialized (GetRandomCol Impl.glibc 2147483647)
      (GetRandomRow Impl.glibc 2147483647) UNSET = .error .outOfBounds ∧
    DoRound Impl.glibc initialized [2147483647, 2147483647, 0, 0] = .error .outOfBounds := by
  refine ⟨by decide, by decide, by decide, by decide, ?_, by decide, by decide, rfl, rfl⟩
  intro r
  have e : GetRandomCol Impl.glibc r = r / 214748364 := rfl
  rw [e]
  simp only [COLS]
  omega

/-! ## The mixing step -/

theorem DoRound_eq_ok {I : Impl} {p p2 : PlayField} {rs rest : List Nat}
    (h : DoRound I p rs = .ok (p2, rest)) :
    ∃ a b rs1 cleared v, rs = a :: b :: rs1 ∧
      SetField p (GetRandomCol I a) (GetRandomRow I b) UNSET = .ok cleared ∧
      DoRound.source I cleared rs1 = .ok (v, rest) ∧
      SetField cleared (GetRandomCol I a) (GetRandomRow I b) v = .ok p2 := by
  match rs, h with
  | a :: b :: rs1, h =>
    simp only [DoRound] at h
    cases h1 : SetField p (GetRandomCol I a) (GetRandomRow I b) UNSET with
    | error e => simp [h1] at h
    | ok cleared =>
      rw [h1] at h
      simp only at h
      cases h2 : DoRound.source I cleared rs1 with
      | error e => simp [h2] at h
      | ok r =>
        obtain ⟨v, rest1⟩ := r
        rw [h2] at h
        simp only at h
        cases h3 : SetField cleared (GetRandomCol I a) (GetRandomRow I b) v with
        | error e => simp [h3] at h
        | ok p3 =>
          rw [h3] at h
          simp only [Except.ok.injEq, Prod.mk.injEq] at h
          obtain ⟨rfl, rfl⟩ := h
          exact ⟨a, b, rs1, cleared, v, rfl, h1, h2, h3⟩
  | [], h => simp [DoRound] at h
  | [_], h => simp [DoRound] at h

theorem source_eq_ok (I : Impl) (p : PlayField) :
    ∀ (rs : List Nat) (v : Color) (rest : List Nat),
      DoRound.source I p rs = .ok (v, rest) →
      ∃ skipped s t, rs = DoRound.samples skipped ++ s :: t :: rest ∧
        (∀ q ∈ skipped, DoRound.read I p q = .ok UNSET) ∧
        DoRound.read I p (s, t) = .ok v ∧ v ≠ UNSET := by
  intro rs
  induction rs using DoRound.source.induct I p with
  | case1 a b rest e he =>
    intro v r h
    simp [DoRound.source, he] at h
  | case2 a b rest hg ih =>
    intro v r h
    simp only [DoRound.source, hg, if_true] at h
    obtain ⟨skipped, s, t, rfl, hsk, hst, hne⟩ := ih v r h
    refine ⟨(a, b) :: skipped, s, t, rfl, ?_, hst, hne⟩
    intro q hq
    rcases List.mem_cons.mp hq with rfl | hq
    · exact hg
    · exact hsk q hq
  | case3 a b rest val hg hv =>
    intro v r h
    simp only [DoRound.source, hg] at h
    rw [if_neg hv] at h
    simp only [Except.ok.injEq, Prod.mk.injEq] at h
    obtain ⟨rfl, rfl⟩ := h
    exact ⟨[], a, b, rfl, by simp, hg, hv⟩
  | case4 rs hrs =>
    intro v r h
    unfold DoRound.source at h
    split at h
    · exact absurd rfl (hrs _ _ _)
    · cases h

theorem source_of_first (I : Impl) (p : PlayField) (s t : Nat) (v : Color) (rest : List Nat)
    (hst : DoRound.read I p (s, t) = .ok v) (hv : v ≠ UNSET) :
    ∀ skipped : List (Nat × Nat), (∀ q ∈ skipped, DoRound.read I p q = .ok UNSET) →
      DoRound.source I p (DoRound.samples skipped ++ s :: t :: rest) = .ok (v, rest) := by
  intro skipped
  induction skipped with
  | nil =>
    intro _
    simp only [DoRound.samples, List.nil_append, DoRound.source]
    rw [show GetField p (DoRound.coord I s t).1 (DoRound.coord I s t).2 = .ok v from hst]
    simp [hv]
  | cons q qs ih =>
    intro hsk
    have hq := hsk q (List.mem_cons_self _ _)
    simp only [DoRound.samples, List.cons_append, DoRound.source]
    rw [show GetField p (DoRound.coord I q.1 q.2).1 (DoRound.coord I q.1 q.2).2 = .ok UNSET
      from hq]
    simp only [if_true]
    exact ih fun q' hq' => hsk q' (List.mem_cons_of_mem _ hq')

/-- The target, the source and the value moved by a completed `DoRound`, as array indices. -/
theorem DoRound_field {I : Impl} {p p2 : PlayField} {rs rest : List Nat}
    (h : DoRound I p rs = .ok (p2, rest)) :
    ∃ a b skipped s t cleared v,
      ∃ ht : GetRandomCol I a + GetRandomRow I b * COLS < ROWS * COLS,
      ∃ hs : (DoRound.coord I s t).1 + (DoRound.coord I s t).2 * COLS < ROWS * COLS,
      rs = a :: b :: (DoRound.samples skipped ++ s :: t :: rest) ∧
      SetField p (GetRandomCol I a) (GetRandomRow I b) UNSET = .ok cleared ∧
      (∀ q ∈ skipped, DoRound.read I cleared q = .ok UNSET) ∧
      DoRound.read I cleared (s, t) = .ok v ∧ v ≠ UNSET ∧
      (DoRound.coord I s t).1 + (DoRound.coord I s t).2 * COLS
        ≠ GetRandomCol I a + GetRandomRow I b * COLS ∧
      p.field ⟨_, hs⟩ = v ∧
      p2 = ⟨Function.update p.field ⟨_, ht⟩ v⟩ := by
  obtain ⟨a, b, rs1, cleared, v, rfl, h1, h2, h3⟩ := DoRound_eq_ok h
  obtain ⟨skipped, s, t, rfl, hsk, hst, hv⟩ := source_eq_ok I cleared rs1 v rest h2
  obtain ⟨ht, hc⟩ := SetField_eq_ok h1
  obtain ⟨_, hp2⟩ := SetField_eq_ok h3
  obtain ⟨hs, hsv⟩ := GetField_eq_ok
    (show GetField cleared (DoRound.coord I s t).1 (DoRound.coord I s t).2 = .ok v from hst)
  have hne : (DoRound.coord I s t).1 + (DoRound.coord I s t).2 * COLS
      ≠ GetRandomCol I a + GetRandomRow I b * COLS := by
    intro e
    apply hv
    rw [← hsv, hc, show (⟨_, hs⟩ : Fin (ROWS * COLS)) = ⟨_, ht⟩ from Fin.ext e]
    exact Function.update_same _ _ _
  refine ⟨a, b, skipped, s, t, cleared, v, ht, hs, rfl, h1, hsk, hst, hv, hne, ?_, ?_⟩
  · rw [← hsv, hc]
    exact (Function.update_noteq (fun e => hne (congrArg Fin.val e)) _ _).symm
  · rw [hp2, hc]
    simp

theorem coord_lt {I : Impl} {rs : List Nat} (hin : InRange I rs) (s t : Nat)
    (hs : s ∈ rs) (ht : t ∈ rs) :
    (DoRound.coord I s t).1 < COLS ∧ (DoRound.coord I s t).2 < ROWS := by
  unfold DoRound.coord
  split
  · exact ⟨(hin s hs).1, (hin t ht).2⟩
  · exact ⟨(hin t ht).1, (hin s hs).2⟩

/-- C3: on in-range samples a completed `DoRound` reads its target from the
first two samples, clears it, skips the sampled coordinates that read `UNSET` in
the cleared grid and stops at the first one, the source, that does not.  The
source is a valid coordinate other than the target, its value `v` is not
`UNSET` and is the value it held before the round, the target holds `v`
afterwards, and every other valid coordinate reads as before the round. -/
theorem DoRound_replaces_target (I : Impl) (p p2 : PlayField) (rs rest : List Nat)
    (hin : InRange I rs) (h : DoRound I p rs = .ok (p2, rest)) :
    ∃ a b skipped s t cleared v,
      rs = a :: b :: (DoRound.samples skipped ++ s :: t :: rest) ∧
      SetField p (GetRandomCol I a) (GetRandomRow I b) UNSET = .ok cleared ∧
      (∀ q ∈ skipped, DoRound.read I cleared q = .ok UNSET) ∧
      DoRound.read I cleared (s, t) = .ok v ∧ v ≠ UNSET ∧
      DoRound.read I p (s, t) = .ok v ∧
      (DoRound.coord I s t).1 < COLS ∧ (DoRound.coord I s t).2 < ROWS ∧
      DoRound.coord I s t ≠ (GetRandomCol I a, GetRandomRow I b) ∧
      GetField p2 (GetRandomCol I a) (GetRandomRow I b) = .ok v ∧
      ∀ x y, x < COLS → y < ROWS → (x, y) ≠ (GetRandomCol I a, GetRandomRow I b) →
        GetField p2 x y = GetField p x y := by
  obtain ⟨a, b, skipped, s, t, cleared, v, ht, hs, rfl, h1, hsk, hst, hv, hne, hpv, rfl⟩ :=
    DoRound_field h
  have ha := hin a (List.mem_cons_self _ _)
  have hsr := coord_lt hin s t (by simp) (by simp)
  refine ⟨a, b, skipped, s, t, cleared, v, rfl, h1, hsk, hst, hv, ?_, hsr.1, hsr.2, ?_, ?_, ?_⟩
  · simp only [DoRound.read, GetField, hs, dite_true, hpv]
  · intro e
    exact hne (by rw [e])
  · rw [GetField_update, if_pos rfl]
  · intro x y hx hy hxy
    rw [GetField_update, if_neg]
    intro e
    apply hxy
    exact index_inj hx ha.1 e

theorem roundSamples_inRange : InRange Impl.glibc roundSamples := by
  intro r hr
  have h : r = 0 ∨ r = 1073741820 := by
    simpa [roundSamples] using hr
  rcases h with rfl | rfl <;> decide

theorem afterRound_eq :
    DoRound Impl.glibc initialized roundSamples = .ok (afterRound, []) :=
  rfl

theorem DoRound_replaces_target_witness :
    ∃ a b skipped s t cleared v,
      roundSamples = a :: b :: (DoRound.samples skipped ++ s :: t :: []) ∧
      SetField initialized (GetRandomCol Impl.glibc a) (GetRandomRow Impl.glibc b) UNSET
        = .ok cleared ∧
      (∀ q ∈ skipped, DoRound.read Impl.glibc cleared q = .ok UNSET) ∧
      DoRound.read Impl.glibc cleared (s, t) = .ok v ∧ v ≠ UNSET ∧
      DoRound.read Impl.glibc initialized (s, t) = .ok v ∧
      (DoRound.coord Impl.glibc s t).1 < COLS ∧ (DoRound.coord Impl.glibc s t).2 < ROWS ∧
      DoRound.coord Impl.glibc s t ≠ (GetRandomCol Impl.glibc a, GetRandomRow Impl.glibc b) ∧
      GetField afterRound (GetRandomCol Impl.glibc a) (GetRandomRow Impl.glibc b) = .ok v ∧
      ∀ x y, x < COLS → y < ROWS →
        (x, y) ≠ (GetRandomCol Impl.glibc a, GetRandomRow Impl.glibc b) →
        GetField afterRound x y = GetField initialized x y :=
  DoRound_replaces_target Impl.glibc initialized afterRound roundSamples []
    roundSamples_inRange afterRound_eq

/-- C4: every color other than `UNSET` that some cell holds after a completed
`DoRound` was held by some cell before it, so the number of distinct colors
other than `UNSET` does not grow across a step; this holds on every sample
sequence on which `DoRound` completes, the in-range ones among them. -/
theorem DoRound_colors_subset (I : Impl) (p p2 : PlayField) (rs rest : List Nat)
    (h : DoRound I p rs = .ok (p2, rest)) :
    colorsPresent p2 ⊆ colorsPresent p ∧ (colorsPresent p2).card ≤ (colorsPresent p).card := by
  have hsub : colorsPresent p2 ⊆ colorsPresent p := by
    obtain ⟨a, b, skipped, s, t, cleared, v, ht, hs, -, -, -, -, hv, -, hpv, rfl⟩ :=
      DoRound_field h
    intro c hc
    simp only [colorsPresent, Finset.mem_filter, Finset.mem_univ, true_and] at hc ⊢
    obtain ⟨hne, i, hi⟩ := hc
    refine ⟨hne, ?_⟩
    by_cases hit : i = ⟨_, ht⟩
    · rw [hit, Function.update_same] at hi
      exact ⟨_, hpv.trans hi⟩
    · rw [Function.update_noteq hit] at hi
      exact ⟨i, hi⟩
  exact ⟨hsub, Finset.card_le_card hsub⟩

theorem DoRound_colors_subset_witness :
    colorsPresent afterRound ⊆ colorsPresent initialized ∧
      (colorsPresent afterRound).card ≤ (colorsPresent initialized).card :=
  DoRound_colors_subset Impl.glibc initialized afterRound roundSamples [] afterRound_eq

theorem source_all_UNSET (I : Impl) (p : PlayField) (hp : ∀ i, p.field i = UNSET)
    (rs : List Nat) (r : Color × List Nat) : DoRound.source I p rs ≠ .ok r := by
  intro h
  obtain ⟨skipped, s, t, -, -, hst, hv⟩ := source_eq_ok I p rs r.1 r.2 h
  obtain ⟨hs, hsv⟩ := GetField_eq_ok
    (show GetField p (DoRound.coord I s t).1 (DoRound.coord I s t).2 = .ok r.1 from hst)
  exact hv (hsv ▸ hp _)

theorem GetRandom_mul (I : Impl) (h1 : 9 ≤ I.RAND_MAX) (h2 : I.RAND_MAX + 1 < 2 ^ 32)
    (k : Nat) :
    GetRandomCol I (k * (((I.RAND_MAX + 1) % 2 ^ 32) / COLS)) = k ∧
    GetRandomRow I (k * (((I.RAND_MAX + 1) % 2 ^ 32) / ROWS)) = k := by
  have hb : 0 < ((I.RAND_MAX + 1) % 2 ^ 32) / 10 := by
    rw [Nat.mod_eq_of_lt h2]
    omega
  simp only [GetRandomCol, GetRandomRow, COLS, ROWS]
  exact ⟨Nat.mul_div_cancel _ hb, Nat.mul_div_cancel _ hb⟩

/-- C7: the source loop of `DoRound` on the grid with the target (a valid
coordinate; `ty < ROWS` follows from `SetField` succeeding) cleared.
(1) It exits at the first sampled coordinate that reads a color other than
`UNSET`, with that color, whatever follows it.  (2) When a valid cell other
than the target holds such a color (and `9 ≤ RAND_MAX < 2 ^ 32 - 1`), some pair
of `rand()` values samples that cell, and the loop exits on it.  (3) When every
valid cell other than the target is `UNSET`, the loop exits on no sample
sequence. -/
theorem DoRound_source_exit (I : Impl) (p : PlayField) (tx ty : Nat) (cleared : PlayField)
    (htx : tx < COLS) (hc : SetField p tx ty UNSET = .ok cleared) :
    (∀ skipped s t v rest, (∀ q ∈ skipped, DoRound.read I cleared q = .ok UNSET) →
        DoRound.read I cleared (s, t) = .ok v → v ≠ UNSET →
        DoRound.source I cleared (DoRound.samples skipped ++ s :: t :: rest) = .ok (v, rest)) ∧
    (9 ≤ I.RAND_MAX → I.RAND_MAX + 1 < 2 ^ 32 →
      ∀ x y v, x < COLS → y < ROWS → (x, y) ≠ (tx, ty) → GetField p x y = .ok v → v ≠ UNSET →
        ∃ s t, DoRound.coord I s t = (x, y) ∧
          ∀ rest, DoRound.source I cleared (s :: t :: rest) = .ok (v, rest)) ∧
    ((∀ x y, x < COLS → y < ROWS → (x, y) ≠ (tx, ty) → GetField p x y = .ok UNSET) →
      ∀ rs r, DoRound.source I cleared rs ≠ .ok r) := by
  obtain ⟨ht, rfl⟩ := SetField_eq_ok hc
  refine ⟨?_, ?_, ?_⟩
  · intro skipped s t v rest hsk hst hv
    exact source_of_first I _ s t v rest hst hv skipped hsk
  · intro h1 h2 x y v hx hy hxy hg hv
    have hcoord : ∃ s t, DoRound.coord I s t = (x, y) := by
      have ex := (GetRandom_mul I h1 h2 x).1
      have ey := (GetRandom_mul I h1 h2 y).2
      by_cases hcf : I.colFirst = true
      · exact ⟨x * (((I.RAND_MAX + 1) % 2 ^ 32) / COLS), y * (((I.RAND_MAX + 1) % 2 ^ 32) / ROWS),
          by simp only [DoRound.coord, hcf, if_true, ex, ey]⟩
      · exact ⟨y * (((I.RAND_MAX + 1) % 2 ^ 32) / ROWS), x * (((I.RAND_MAX + 1) % 2 ^ 32) / COLS),
          by simp only [DoRound.coord, hcf, ex, ey]; rfl⟩
    obtain ⟨s, t, hst⟩ := hcoord
    refine ⟨s, t, hst, fun rest => ?_⟩
    have hread : DoRound.read I ⟨Function.update p.field ⟨_, ht⟩ UNSET⟩ (s, t) = .ok v := by
      simp only [DoRound.read, hst]
      rw [GetField_update, if_neg, hg]
      exact fun e => hxy (index_inj hx htx e)
    exact source_of_first I _ s t v rest hread hv [] (by simp)
  · intro hall rs r
    apply source_all_UNSET
    intro i
    by_cases hit : i = ⟨_, ht⟩
    · rw [hit]
      exact Function.update_same _ _ _
    · show Function.update p.field _ UNSET i = UNSET
      rw [Function.update_noteq hit]
      obtain ⟨hx, hy, hg⟩ := GetField_index p i
      have := hall _ _ hx hy (by
        intro e
        simp only [Prod.mk.injEq] at e
        apply hit
        apply Fin.ext
        show i.val = tx + ty * COLS
        rw [← e.1, ← e.2]
        exact (mod_add_div_COLS _).symm)
      rw [hg] at this
      injection this

theorem initializedCleared_eq : SetField initialized 0 0 UNSET = .ok initializedCleared :=
  rfl

theorem DoRound_source_exit_witness :
    DoRound.source Impl.glibc initializedCleared
        (DoRound.samples [(0, 0)] ++ 1073741820 :: 1073741820 :: [7]) = .ok (BLUE, [7]) ∧
    (∃ s t, DoRound.coord Impl.glibc s t = (5, 5) ∧
      ∀ rest, DoRound.source Impl.glibc initializedCleared (s :: t :: rest) = .ok (BLUE, rest)) ∧
    ∀ rs r, DoRound.source Impl.glibc PlayField.new rs ≠ .ok r :=
  ⟨(DoRound_source_exit Impl.glibc initialized 0 0 initializedCleared (by decide)
      initializedCleared_eq).1 [(0, 0)] 1073741820 1073741820 BLUE [7]
      (by
        intro q hq
        rw [List.mem_singleton.mp hq]
        rfl)
      rfl (by decide),
    (DoRound_source_exit Impl.glibc initialized 0 0 initializedCleared (by decide)
      initializedCleared_eq).2.1 (by decide) (by decide) 5 5 BLUE (by decide) (by decide)
      (by decide) rfl (by decide),
    (DoRound_source_exit Impl.glibc PlayField.new 0 0 PlayField.new (by decide)
      (by
        unfold SetField
        rw [dif_pos (by decide)]
        congr 2
        exact Function.update_eq_self _ _)).2.2
      (by
        intro x y hx hy _
        simp [GetField, index_lt hx hy, PlayField.new])⟩

theorem DoRound_target_refilled (I : Impl) (p : PlayField) (rs : List Nat) (p2 : PlayField)
    (rest : List Nat) (h : DoRound I p rs = .ok (p2, rest)) :
    ∃ a b tail s t v, rs = a :: b :: tail ∧
      GetField p2 (GetRandomCol I a) (GetRandomRow I b) = .ok v ∧ v ≠ UNSET ∧
      DoRound.read I p (s, t) = .ok v := by
  obtain ⟨a, b, skipped, s, t, cleared, v, ht, hs, rfl, -, -, -, hv, -, hpv, rfl⟩ :=
    DoRound_field h
  refine ⟨a, b, _, s, t, v, rfl, ?_, hv, ?_⟩
  · rw [GetField_update, if_pos rfl]
  · simp only [DoRound.read, GetField, hs, dite_true, hpv]

theorem Reachable_occupied (I : Impl) (p : PlayField) (h : Reachable I p) :
    ∃ x y v, x < COLS ∧ y < ROWS ∧ GetField p x y = .ok v ∧ v ≠ UNSET := by
  have hi : ∃ i, p.field i ≠ UNSET := by
    cases h with
    | init rs _ rest h0 =>
      have hne := (InitializeWithRandomColors_counts I rs p rest h0).2.2.2.2.2.2
      exact ⟨⟨0, by decide⟩, hne _⟩
    | round p0 rs _ rest _ h0 =>
      obtain ⟨a, b, skipped, s, t, cleared, v, ht, hs, -, -, -, -, hv, -, -, rfl⟩ :=
        DoRound_field h0
      exact ⟨⟨_, ht⟩, by simpa using hv⟩
  obtain ⟨i, hne⟩ := hi
  obtain ⟨hx, hy, hg⟩ := GetField_index p i
  exact ⟨_, _, _, hx, hy, hg, hne⟩

/-- C8: every grid reached from the grid `InitializeWithRandomColors` builds by
completed `DoRound` calls has a valid coordinate that reads a color other than
`UNSET`; and a completed `DoRound` leaves in its target cell a color other than
`UNSET` that a sampled source cell held before the round. -/
theorem Reachable_has_occupied_cell (I : Impl) :
    (∀ p, Reachable I p →
      ∃ x y v, x < COLS ∧ y < ROWS ∧ GetField p x y = .ok v ∧ v ≠ UNSET) ∧
    (∀ p rs p2 rest, DoRound I p rs = .ok (p2, rest) →
      ∃ a b tail s t v, rs = a :: b :: tail ∧
        GetField p2 (GetRandomCol I a) (GetRandomRow I b) = .ok v ∧ v ≠ UNSET ∧
        DoRound.read I p (s, t) = .ok v) :=
  ⟨Reachable_occupied I, DoRound_target_refilled I⟩

theorem Reachable_has_occupied_cell_witness :
    (∃ x y v, x < COLS ∧ y < ROWS ∧ GetField afterRound x y = .ok v ∧ v ≠ UNSET) ∧
    (∃ a b tail s t v, roundSamples = a :: b :: tail ∧
      GetField afterRound (GetRandomCol Impl.glibc a) (GetRandomRow Impl.glibc b) = .ok v ∧
      v ≠ UNSET ∧ DoRound.read Impl.glibc initialized (s, t) = .ok v) :=
  ⟨(Reachable_has_occupied_cell Impl.glibc).1 afterRound
      (Reachable.round initialized roundSamples afterRound []
        (Reachable.init (sweep 0 100) initialized [] initialized_eq) afterRound_eq),
    (Reachable_has_occupied_cell Impl.glibc).2 initialized roundSamples afterRound []
      afterRound_eq⟩

/-! ## The driver loop -/

theorem Calc_of_stopped (I : Impl) (fuel : Nat) (g : UIGame) (rs : List Nat)
    (h : (!g.finished && !g.quit) = false) : UIGame.Calc I fuel g rs = .ok (g, rs, 0) := by
  cases fuel with
  | zero => simp only [UIGame.Calc, h, Bool.false_eq_true, if_false]
  | succ n => simp only [UIGame.Calc, h, Bool.false_eq_true, if_false]

theorem Calc_body_ended (I : Impl) (g : UIGame) (rs : List Nat)
    (h : IsEnded g.playField = .ok true) :
    UIGame.Calc.body I g rs = .ok ({ g with finished := true }, rs) := by
  simp only [UIGame.Calc.body, h]

theorem Calc_body_round (I : Impl) (g : UIGame) (rs : List Nat) (p1 : PlayField)
    (rest : List Nat) (h : IsEnded g.playField = .ok false)
    (hr : DoRound I g.playField rs = .ok (p1, rest)) (hlt : g.round < INT_MAX) :
    UIGame.Calc.body I g rs = .ok ({ g with playField := p1, round := g.round + 1 }, rest) := by
  simp only [UIGame.Calc.body, h, hr, if_pos hlt]

theorem Calc_body_eq_ok (I : Impl) (g g1 : UIGame) (rs rest : List Nat)
    (h : UIGame.Calc.body I g rs = .ok (g1, rest)) :
    (IsEnded g.playField = .ok true ∧ g1 = { g with finished := true } ∧ rest = rs) ∨
    (IsEnded g.playField = .ok false ∧ g.round < INT_MAX ∧
      ∃ p1, DoRound I g.playField rs = .ok (p1, rest) ∧
        g1 = { g with playField := p1, round := g.round + 1 }) := by
  unfold UIGame.Calc.body at h
  cases he : IsEnded g.playField with
  | error e => simp [he] at h
  | ok b =>
    rw [he] at h
    cases b with
    | true =>
      simp only [Except.ok.injEq, Prod.mk.injEq] at h
      exact Or.inl ⟨rfl, h.1.symm, h.2.symm⟩
    | false =>
      simp only at h
      cases hr : DoRound I g.playField rs with
      | error e => simp [hr] at h
      | ok r =>
        obtain ⟨p1, rest1⟩ := r
        rw [hr] at h
        simp only at h
        by_cases hlt : g.round < INT_MAX
        · rw [if_pos hlt] at h
          simp only [Except.ok.injEq, Prod.mk.injEq] at h
          obtain ⟨h1, rfl⟩ := h
          exact Or.inr ⟨rfl, hlt, p1, rfl, h1.symm⟩
        · rw [if_neg hlt] at h
          cases h

theorem Calc_sound (I : Impl) :
    ∀ (fuel : Nat) (g : UIGame) (rs : List Nat) (g2 : UIGame) (rest : List Nat) (n : Nat),
      g.finished = false → g.quit = false →
      UIGame.Calc I fuel g rs = .ok (g2, rest, n) →
      ∃ k, Rounds I k (g.playField, rs) (g2.playField, rest) ∧
        IsEnded g2.playField = .ok true ∧ g2.round = g.round + k ∧ n = k + 1 ∧
        g2.finished = true ∧ g2.quit = false := by
  intro fuel
  induction fuel with
  | zero =>
    intro g rs g2 rest n hf hq h
    simp [UIGame.Calc, hf, hq] at h
  | succ fuel ih =>
    intro g rs g2 rest n hf hq h
    simp only [UIGame.Calc, hf, hq, Bool.not_false, Bool.and_self, if_true] at h
    cases hb : UIGame.Calc.body I g rs with
    | error e => simp [hb] at h
    | ok r =>
      obtain ⟨g1, rest1⟩ := r
      rw [hb] at h
      simp only at h
      cases hc : UIGame.Calc I fuel g1 rest1 with
      | error e => simp [hc] at h
      | ok r2 =>
        obtain ⟨g3, rest3, n3⟩ := r2
        rw [hc] at h
        simp only [Except.ok.injEq, Prod.mk.injEq] at h
        obtain ⟨rfl, rfl, rfl⟩ := h
        rcases Calc_body_eq_ok I g g1 rs rest1 hb with ⟨he, rfl, rfl⟩ | ⟨he, hlt, p1, hr, rfl⟩
        · rw [Calc_of_stopped I fuel _ _ (by simp)] at hc
          simp only [Except.ok.injEq, Prod.mk.injEq] at hc
          obtain ⟨rfl, rfl, rfl⟩ := hc
          exact ⟨0, Rounds.zero _, he, rfl, rfl, rfl, hq⟩
        · obtain ⟨k, hk, hend, hround, hn, hfin, hquit⟩ :=
            ih { g with playField := p1, round := g.round + 1 } rest1 g3 rest3 n3 hf hq hc
          refine ⟨k + 1, Rounds.succ k _ _ _ _ _ he hr hk, hend, ?_, by omega, hfin, hquit⟩
          simp only at hround
          omega

theorem Calc_complete (I : Impl) :
    ∀ (k : Nat) (fuel : Nat) (g : UIGame) (rs : List Nat) (p2 : PlayField) (rest : List Nat),
      g.finished = false → g.quit = false →
      Rounds I k (g.playField, rs) (p2, rest) → IsEnded p2 = .ok true →
      g.round + k ≤ INT_MAX → k < fuel →
      UIGame.Calc I fuel g rs = .ok (⟨g.round + k, false, true, p2⟩, rest, k + 1) := by
  intro k
  induction k with
  | zero =>
    intro fuel g rs p2 rest hf hq hk hend _ hfuel
    cases hk
    obtain ⟨fuel, rfl⟩ : ∃ m, fuel = m + 1 := ⟨fuel - 1, by omega⟩
    simp only [UIGame.Calc, hf, hq, Bool.not_false, Bool.and_self, if_true,
      Calc_body_ended I g rs hend]
    rw [Calc_of_stopped I fuel _ _ (by simp)]
    obtain ⟨r, q, f, p⟩ := g
    simp only at hf hq
    subst hf hq
    rfl
  | succ k ih =>
    intro fuel g rs p2 rest hf hq hk hend hround hfuel
    cases hk with
    | succ _ _ _ p1 rs1 _ he hr hk1 =>
      obtain ⟨fuel, rfl⟩ : ∃ m, fuel = m + 1 := ⟨fuel - 1, by omega⟩
      simp only [UIGame.Calc, hf, hq, Bool.not_false, Bool.and_self, if_true,
        Calc_body_round I g rs p1 rs1 he hr (by omega)]
      rw [ih fuel ⟨g.round + 1, false, false, p1⟩ rs1 p2 rest rfl rfl hk1 hend
        (by simp only; omega) (by omega)]
      simp only [Except.ok.injEq, Prod.mk.injEq, and_true, true_and]
      congr 1
      omega

/-- C9, on the code: on a grid that is already uniform `Calc` executes one
iteration, which calls `IsEnded` and sets `finished`; it calls no `DoRound`
(no sample is there to draw), leaves the grid as it is and `round` at 0.  So
the step counter is not the number of iterations executed, for this run and
hence not for every run. -/
theorem Calc_on_terminal_grid :
    (∃ g2, UIGame.Calc Impl.glibc 1 terminalStart [] = .ok (g2, [], 1) ∧
      g2.round = 0 ∧ g2.round ≠ 1 ∧ g2.finished = true ∧
      g2.playField = terminalStart.playField) ∧
    ¬ ∀ (fuel : Nat) (g : UIGame) (rs : List Nat) (g2 : UIGame) (rest : List Nat) (n : Nat),
      g.finished = false → g.quit = false →
      UIGame.Calc Impl.glibc fuel g rs = .ok (g2, rest, n) → g2.round = g.round + n := by
  have h : UIGame.Calc Impl.glibc 1 terminalStart []
      = .ok ({ terminalStart with finished := true }, [], 1) := rfl
  refine ⟨⟨_, h, rfl, by decide, rfl, rfl⟩, fun hall => ?_⟩
  have := hall 1 terminalStart [] _ [] 1 rfl rfl h
  exact absurd this (by decide)

/-- C9, amended: an iteration of the loop of `Calc` first calls `IsEnded`; when
it is true the iteration sets `finished` and does nothing else, and when it is
false the iteration calls `DoRound` and then increments `round`.  A run that
starts with `finished` and `quit` unset and returns has made `k` rounds, each on
a grid on which `IsEnded` was false, ends on the first grid (the starting grid
included) on which `IsEnded` is true, with `round` increased by `k`, `finished`
set and `k + 1` iterations executed; and every such sequence of rounds is what
`Calc` does when the budget exceeds `k` and `round` stays within `INT_MAX`. -/
theorem Calc_checks_then_steps (I : Impl) (g : UIGame) (hf : g.finished = false)
    (hq : g.quit = false) :
    (∀ rs, IsEnded g.playField = .ok true →
      UIGame.Calc.body I g rs = .ok ({ g with finished := true }, rs)) ∧
    (∀ rs p1 rest, IsEnded g.playField = .ok false →
      DoRound I g.playField rs = .ok (p1, rest) → g.round < INT_MAX →
      UIGame.Calc.body I g rs
        = .ok ({ g with playField := p1, round := g.round + 1 }, rest)) ∧
    (∀ fuel rs g2 rest n, UIGame.Calc I fuel g rs = .ok (g2, rest, n) →
      ∃ k, Rounds I k (g.playField, rs) (g2.playField, rest) ∧
        IsEnded g2.playField = .ok true ∧ g2.round = g.round + k ∧ n = k + 1 ∧
        g2.finished = true ∧ g2.quit = false) ∧
    (∀ k fuel rs p2 rest, Rounds I k (g.playField, rs) (p2, rest) →
      IsEnded p2 = .ok true → g.round + k ≤ INT_MAX → k < fuel →
      UIGame.Calc I fuel g rs = .ok (⟨g.round + k, false, true, p2⟩, rest, k + 1)) :=
  ⟨fun rs h => Calc_body_ended I g rs h,
    fun rs p1 rest h hr hlt => Calc_body_round I g rs p1 rest h hr hlt,
    fun fuel rs g2 rest n h => Calc_sound I fuel g rs g2 rest n hf hq h,
    fun k fuel rs p2 rest hk he hr hfuel =>
      Calc_complete I k fuel g rs p2 rest hf hq hk he hr hfuel⟩

theorem almostResult_eq :
    UIGame.Calc Impl.glibc 2 almostStart almostSamples = .ok (almostResult, [], 2) :=
  rfl

theorem Calc_checks_then_steps_witness :
    (∃ k, Rounds Impl.glibc k (almostStart.playField, almostSamples)
        (almostResult.playField, []) ∧
      IsEnded almostResult.playField = .ok true ∧
      almostResult.round = almostStart.round + k ∧ 2 = k + 1 ∧
      almostResult.finished = true ∧ almostResult.quit = false) ∧
    UIGame.Calc Impl.glibc 1 terminalStart []
      = .ok (⟨terminalStart.round + 0, false, true, uniformRed⟩, [], 0 + 1) :=
  ⟨(Calc_checks_then_steps Impl.glibc almostStart rfl rfl).2.2.1 2 almostSamples
      almostResult [] 2 almostResult_eq,
    (Calc_checks_then_steps Impl.glibc terminalStart rfl rfl).2.2.2 0 1 [] uniformRed []
      (Rounds.zero _) rfl (by decide) (by decide)⟩

/-- C10: when `quit` is set as the loop condition of `Calc` is evaluated, the
loop exits at once, whatever the budget: no iteration is executed, no sample
is drawn, and the driver state is the one before, with the same grid and the
same `round`; `finished`, unset when the cancellation is observed, stays
unset. -/
theorem Calc_cancelled (I : Impl) (fuel : Nat) (g : UIGame) (rs : List Nat)
    (hq : g.quit = true) :
    UIGame.Calc I fuel g rs = .ok (g, rs, 0) ∧
    (g.finished = false → ∀ g2 rest n, UIGame.Calc I fuel g rs = .ok (g2, rest, n) →
      n = 0 ∧ rest = rs ∧ g2.playField = g.playField ∧ g2.round = g.round ∧
      g2.finished = false ∧ g2.quit = true) := by
  have h := Calc_of_stopped I fuel g rs (by simp [hq])
  refine ⟨h, fun hf g2 rest n h2 => ?_⟩
  rw [h] at h2
  simp only [Except.ok.injEq, Prod.mk.injEq] at h2
  obtain ⟨rfl, rfl, rfl⟩ := h2
  exact ⟨rfl, rfl, rfl, rfl, hf, hq⟩

theorem Calc_cancelled_witness :
    UIGame.Calc Impl.glibc 3 cancelledStart roundSamples = .ok (cancelledStart, roundSamples, 0) ∧
    (0 = 0 ∧ roundSamples = roundSamples ∧ cancelledStart.playField = cancelledStart.playField ∧
      cancelledStart.round = cancelledStart.round ∧ cancelledStart.finished = false ∧
      cancelledStart.quit = true) :=
  ⟨(Calc_cancelled Impl.glibc 3 cancelledStart roundSamples rfl).1,
    (Calc_cancelled Impl.glibc 3 cancelledStart roundSamples rfl).2 rfl cancelledStart
      roundSamples 0 (Calc_cancelled Impl.glibc 3 cancelledStart roundSamples rfl).1⟩

/-! ## Frame and invariants of the grid -/

/-- C15: `SetField` at a valid coordinate succeeds and leaves what `GetField`
returns at every other valid coordinate unchanged: the index `x + y * COLS` of
a valid coordinate is below `ROWS * COLS`, and two valid coordinates with the
same index are equal. -/
theorem SetField_frame (p : PlayField) (x y : Nat) (v : Color) (hx : x < COLS) (hy : y < ROWS) :
    (∃ p1, SetField p x y v = .ok p1 ∧
      ∀ x1 y1, x1 < COLS → y1 < ROWS → (x1, y1) ≠ (x, y) →
        GetField p1 x1 y1 = GetField p x1 y1) ∧
    x + y * COLS < ROWS * COLS ∧
    (∀ x1 y1, x1 < COLS → y1 < ROWS → x1 + y1 * COLS = x + y * COLS → (x1, y1) = (x, y)) := by
  refine ⟨⟨⟨Function.update p.field ⟨x + y * COLS, index_lt hx hy⟩ v⟩, ?_, ?_⟩,
    index_lt hx hy, fun x1 y1 hx1 _ e => index_inj hx1 hx e⟩
  · simp [SetField, index_lt hx hy]
  · intro x1 y1 hx1 _ hne
    rw [GetField_update, if_neg]
    exact fun e => hne (index_inj hx1 hx e)

theorem SetField_frame_witness :
    (∃ p1, SetField initialized 3 7 BLUE = .ok p1 ∧
      ∀ x1 y1, x1 < COLS → y1 < ROWS → (x1, y1) ≠ (3, 7) →
        GetField p1 x1 y1 = GetField initialized x1 y1) ∧
    3 + 7 * COLS < ROWS * COLS ∧
    (∀ x1 y1, x1 < COLS → y1 < ROWS → x1 + y1 * COLS = 3 + 7 * COLS → (x1, y1) = (3, 7)) :=
  SetField_frame initialized 3 7 BLUE (by decide) (by decide)

/-- C18: every valid coordinate of the freshly constructed grid reads `UNSET`,
`IsEnded` returns `true` on it, and no color other than `UNSET` is present. -/
theorem PlayField_new_all_UNSET :
    (∀ x y, x < COLS → y < ROWS → GetField PlayField.new x y = .ok UNSET) ∧
    IsEnded PlayField.new = .ok true ∧ colorsPresent PlayField.new = ∅ := by
  refine ⟨fun x y hx hy => ?_, ?_, ?_⟩
  · rw [GetField_in_range _ x y hx hy]
    rfl
  · exact (IsEnded_true_iff PlayField.new).mpr fun _ _ => rfl
  · ext c
    simp only [colorsPresent, PlayField.new, Finset.mem_filter, Finset.mem_univ, true_and,
      Finset.not_mem_empty, iff_false, not_and, not_exists]
    intro hc i hi
    exact hc hi.symm

theorem PlayField_new_all_UNSET_witness :
    GetField PlayField.new 9 9 = .ok UNSET ∧ IsEnded PlayField.new = .ok true :=
  ⟨PlayField_new_all_UNSET.1 9 9 (by decide) (by decide), PlayField_new_all_UNSET.2.1⟩

theorem DoRound_UNSET_le {I : Impl} {p p2 : PlayField} {rs rest : List Nat}
    (h : DoRound I p rs = .ok (p2, rest)) :
    countColor p2 UNSET ≤ countColor p UNSET ∧
      ((∀ i, p.field i ≠ UNSET) → ∀ i, p2.field i ≠ UNSET) := by
  obtain ⟨a, b, skipped, s, t, cleared, v, ht, hs, -, -, -, -, hv, -, -, rfl⟩ := DoRound_field h
  constructor
  · have e := countColor_update p ⟨_, ht⟩ v UNSET
    rw [if_neg hv] at e
    omega
  · intro hp i
    by_cases hi : i = ⟨_, ht⟩
    · rw [hi]
      simpa using hv
    · simpa [Function.update_noteq hi] using hp i

theorem Reachable_no_UNSET {I : Impl} {p : PlayField} (h : Reachable I p) :
    ∀ i, p.field i ≠ UNSET := by
  induction h with
  | init rs p rest h0 => exact (InitializeWithRandomColors_counts I rs p rest h0).2.2.2.2.2.2
  | round p rs p2 rest _ h0 ih => exact (DoRound_UNSET_le h0).2 ih

theorem times_Reachable (I : Impl) :
    ∀ (n : Nat) (p : PlayField) (rs : List Nat) (p2 : PlayField) (rest : List Nat),
      Reachable I p → DoRound.times I n p rs = .ok (p2, rest) → Reachable I p2 := by
  intro n
  induction n with
  | zero =>
    intro p rs p2 rest hp h
    simp only [DoRound.times, Except.ok.injEq, Prod.mk.injEq] at h
    exact h.1 ▸ hp
  | succ n ih =>
    intro p rs p2 rest hp h
    simp only [DoRound.times] at h
    cases hr : DoRound I p rs with
    | error e => simp [hr] at h
    | ok r =>
      obtain ⟨p1, rest1⟩ := r
      rw [hr] at h
      exact ih p1 rest1 p2 rest (Reachable.round p rs p1 rest1 hp hr) h

theorem mixed_eq : DoRound.times Impl.glibc 75 initialized (mix 25 75) = .ok (mixed, []) :=
  rfl

set_option maxRecDepth 100000 in
theorem mixed_ended : IsEnded mixed = .ok true :=
  rfl

theorem mixed_reachable : Reachable Impl.glibc mixed :=
  times_Reachable Impl.glibc 75 initialized (mix 25 75) mixed []
    (Reachable.init (sweep 0 100) initialized [] initialized_eq) mixed_eq

/-- C16: a completed `DoRound` does not increase the number of `UNSET` cells,
and a grid without an `UNSET` cell stays without one.  So no valid coordinate
of a grid reached from the initialized grid reads `UNSET`, and when `IsEnded`
returns `true` on such a grid, all valid coordinates read one and the same
color, which is not `UNSET`. -/
theorem DoRound_keeps_cells_set (I : Impl) :
    (∀ p rs p2 rest, DoRound I p rs = .ok (p2, rest) →
      countColor p2 UNSET ≤ countColor p UNSET ∧
      (countColor p UNSET = 0 → countColor p2 UNSET = 0) ∧
      ((∀ i, p.field i ≠ UNSET) → ∀ i, p2.field i ≠ UNSET)) ∧
    (∀ p, Reachable I p →
      (∀ x y, x < COLS → y < ROWS → GetField p x y ≠ .ok UNSET) ∧
      (IsEnded p = .ok true →
        ∃ c, c ≠ UNSET ∧ ∀ x y, x < COLS → y < ROWS → GetField p x y = .ok c)) := by
  constructor
  · intro p rs p2 rest h
    obtain ⟨hle, hno⟩ := DoRound_UNSET_le h
    exact ⟨hle, fun h0 => by omega, hno⟩
  · intro p hp
    have hno := Reachable_no_UNSET hp
    constructor
    · intro x y hx hy e
      rw [GetField_in_range p x y hx hy] at e
      injection e with e
      exact hno _ e
    · intro he
      have hall := (IsEnded_true_iff p).mp he
      refine ⟨p.field ⟨0, by decide⟩, hno _, fun x y hx hy => ?_⟩
      rw [GetField_in_range p x y hx hy, hall]

theorem DoRound_keeps_cells_set_witness :
    (countColor afterRound UNSET ≤ countColor initialized UNSET ∧
      (countColor initialized UNSET = 0 → countColor afterRound UNSET = 0) ∧
      ((∀ i, initialized.field i ≠ UNSET) → ∀ i, afterRound.field i ≠ UNSET)) ∧
    (∀ x y, x < COLS → y < ROWS → GetField mixed x y ≠ .ok UNSET) ∧
    ∃ c, c ≠ UNSET ∧ ∀ x y, x < COLS → y < ROWS → GetField mixed x y = .ok c :=
  ⟨(DoRound_keeps_cells_set Impl.glibc).1 initialized roundSamples afterRound [] afterRound_eq,
    ((DoRound_keeps_cells_set Impl.glibc).2 mixed mixed_reachable).1,
    ((DoRound_keeps_cells_set Impl.glibc).2 mixed mixed_reachable).2 mixed_ended⟩

/-! ## Runs of the driver -/

theorem Calc_step_cases (I : Impl) (s t : UIGame × List Nat) (h : UIGame.Calc.step I s t) :
    s.1.finished = false ∧
    ((t.1.round = s.1.round + 1 ∧ DoRound I s.1.playField s.2 = .ok (t.1.playField, t.2) ∧
        t.1.finished = false) ∨
      (t.1.round = s.1.round ∧ t.1.playField = s.1.playField ∧ t.2 = s.2 ∧
        t.1.finished = true)) := by
  obtain ⟨hc, hb⟩ := h
  obtain ⟨g, rs⟩ := s
  obtain ⟨g1, rest⟩ := t
  have hf : g.finished = false := by
    simp only [Bool.and_eq_true, Bool.not_eq_true'] at hc
    exact hc.1
  refine ⟨hf, ?_⟩
  rcases Calc_body_eq_ok I g g1 rs rest hb with ⟨-, rfl, rfl⟩ | ⟨-, -, p1, hr, rfl⟩
  · exact Or.inr ⟨rfl, rfl, rfl, rfl⟩
  · exact Or.inl ⟨rfl, hr, hf⟩

theorem move_monotone (I : Impl) (s t : UIGame × List Nat) (h : UIGame.move I s t) :
    s.1.round ≤ t.1.round ∧ (s.1.finished = true → t.1.finished = true) := by
  rcases h with h | rfl
  · obtain ⟨hf, h1 | h1⟩ := Calc_step_cases I s t h
    · exact ⟨by omega, fun h => by rw [hf] at h; cases h⟩
    · exact ⟨by omega, fun _ => h1.2.2.2⟩
  · exact ⟨le_refl _, fun h => h⟩

theorem moves_monotone (I : Impl) (s t : UIGame × List Nat)
    (h : Relation.ReflTransGen (UIGame.move I) s t) :
    s.1.round ≤ t.1.round ∧ (s.1.finished = true → t.1.finished = true) := by
  induction h with
  | refl => exact ⟨le_refl _, fun h => h⟩
  | tail _ hbc ih =>
    obtain ⟨h1, h2⟩ := move_monotone I _ _ hbc
    exact ⟨le_trans ih.1 h1, fun h => h2 (ih.2 h)⟩

theorem Calc_steps (I : Impl) :
    ∀ (fuel : Nat) (g : UIGame) (rs : List Nat) (g2 : UIGame) (rest : List Nat) (n : Nat),
      UIGame.Calc I fuel g rs = .ok (g2, rest, n) →
      Relation.ReflTransGen (UIGame.Calc.step I) (g, rs) (g2, rest) ∧ n ≤ fuel ∧
        (g.round ≤ INT_MAX → g2.round ≤ INT_MAX) := by
  intro fuel
  induction fuel with
  | zero =>
    intro g rs g2 rest n h
    simp only [UIGame.Calc] at h
    split at h
    · cases h
    · simp only [Except.ok.injEq, Prod.mk.injEq] at h
      obtain ⟨rfl, rfl, rfl⟩ := h
      exact ⟨Relation.ReflTransGen.refl, le_refl _, fun h => h⟩
  | succ fuel ih =>
    intro g rs g2 rest n h
    simp only [UIGame.Calc] at h
    by_cases hc : (!g.finished && !g.quit) = true
    · rw [if_pos hc] at h
      cases hb : UIGame.Calc.body I g rs with
      | error e => simp [hb] at h
      | ok r =>
        obtain ⟨g1, rest1⟩ := r
        rw [hb] at h
        simp only at h
        cases hcalc : UIGame.Calc I fuel g1 rest1 with
        | error e => simp [hcalc] at h
        | ok r2 =>
          obtain ⟨g3, rest3, n3⟩ := r2
          rw [hcalc] at h
          simp only [Except.ok.injEq, Prod.mk.injEq] at h
          obtain ⟨rfl, rfl, rfl⟩ := h
          obtain ⟨hsteps, hn, hmax⟩ := ih g1 rest1 g3 rest3 n3 hcalc
          refine ⟨Relation.ReflTransGen.head ⟨hc, hb⟩ hsteps, by omega, fun hg => hmax ?_⟩
          rcases Calc_body_eq_ok I g g1 rs rest1 hb with ⟨-, rfl, -⟩ | ⟨-, hlt, p1, -, rfl⟩
          · exact hg
          · show g.round + 1 ≤ INT_MAX
            omega
    · rw [if_neg hc] at h
      simp only [Except.ok.injEq, Prod.mk.injEq] at h
      obtain ⟨rfl, rfl, rfl⟩ := h
      exact ⟨Relation.ReflTransGen.refl, Nat.zero_le _, fun h => h⟩

/-- C14: the constructor of `UIGame` sets `round` to 0 and leaves `finished`
unset.  An iteration of the loop of `Calc` runs only while `finished` is unset,
and either calls `DoRound` and increases `round` by exactly 1, or calls no
`DoRound`, leaves `round` as it is and sets `finished`.  So along every run,
the writes `quit = true` of the other thread included, `round` never decreases
and `finished`, once set, stays set; and a run of `Calc` that returns has
increased `round` by the number of its `DoRound` calls. -/
theorem Calc_round_monotone (I : Impl) :
    UIGame.new.round = 0 ∧ UIGame.new.finished = false ∧
    (∀ s t, UIGame.Calc.step I s t →
      s.1.finished = false ∧
      ((t.1.round = s.1.round + 1 ∧ DoRound I s.1.playField s.2 = .ok (t.1.playField, t.2) ∧
          t.1.finished = false) ∨
        (t.1.round = s.1.round ∧ t.1.playField = s.1.playField ∧ t.2 = s.2 ∧
          t.1.finished = true))) ∧
    (∀ s t, Relation.ReflTransGen (UIGame.move I) s t →
      s.1.round ≤ t.1.round ∧ (s.1.finished = true → t.1.finished = true)) ∧
    (∀ fuel g rs g2 rest n, UIGame.Calc I fuel g rs = .ok (g2, rest, n) →
      Relation.ReflTransGen (UIGame.Calc.step I) (g, rs) (g2, rest) ∧
      g.round ≤ g2.round ∧ (g.finished = true → g2.finished = true) ∧
      (g.finished = false → g.quit = false →
        ∃ k, Rounds I k (g.playField, rs) (g2.playField, rest) ∧ g2.round = g.round + k)) := by
  refine ⟨rfl, rfl, Calc_step_cases I, moves_monotone I, ?_⟩
  intro fuel g rs g2 rest n h
  obtain ⟨hsteps, -, -⟩ := Calc_steps I fuel g rs g2 rest n h
  have hmoves : Relation.ReflTransGen (UIGame.move I) (g, rs) (g2, rest) :=
    Relation.ReflTransGen.mono (fun _ _ hs => Or.inl hs) hsteps
  obtain ⟨h1, h2⟩ := moves_monotone I _ _ hmoves
  refine ⟨hsteps, h1, h2, fun hf hq => ?_⟩
  obtain ⟨k, hk, -, hr, -⟩ := Calc_sound I fuel g rs g2 rest n hf hq h
  exact ⟨k, hk, hr⟩

theorem Calc_round_monotone_witness :
    (Relation.ReflTransGen (UIGame.Calc.step Impl.glibc) (almostStart, almostSamples)
        (almostResult, []) ∧
      almostStart.round ≤ almostResult.round ∧
      (almostStart.finished = true → almostResult.finished = true) ∧
      (almostStart.finished = false → almostStart.quit = false →
        ∃ k, Rounds Impl.glibc k (almostStart.playField, almostSamples)
            (almostResult.playField, []) ∧
          almostResult.round = almostStart.round + k)) ∧
    (cancelledStart.round ≤ ({ cancelledStart with quit := true } : UIGame).round ∧
      (cancelledStart.finished = true →
        ({ cancelledStart with quit := true } : UIGame).finished = true)) :=
  ⟨(Calc_round_monotone Impl.glibc).2.2.2.2 2 almostStart almostSamples almostResult [] 2
      almostResult_eq,
    (Calc_round_monotone Impl.glibc).2.2.2.1 (cancelledStart, [])
      ({ cancelledStart with quit := true }, [])
      (Relation.ReflTransGen.single (Or.inr rfl))⟩

theorem DoGame_loop_sound (I : Impl) :
    ∀ (fuel : Nat) (s : StatsGame) (rs : List Nat) (s2 : StatsGame) (rest : List Nat),
      StatsGame.DoGame.loop I fuel s rs = .ok (s2, rest) →
      ∃ k, Rounds I k (s.playField, rs) (s2.playField, rest) ∧
        IsEnded s2.playField = .ok true ∧ s2.runde = s.runde + k ∧ k ≤ fuel ∧
        (s.runde ≤ INT_MAX → s2.runde ≤ INT_MAX) := by
  intro fuel
  induction fuel with
  | zero =>
    intro s rs s2 rest h
    simp only [StatsGame.DoGame.loop] at h
    rcases IsEnded_total s.playField with he | he
    · rw [he] at h
      simp only [Except.ok.injEq, Prod.mk.injEq] at h
      obtain ⟨rfl, rfl⟩ := h
      exact ⟨0, Rounds.zero _, he, rfl, le_refl _, fun h => h⟩
    · rw [he] at h
      cases h
  | succ fuel ih =>
    intro s rs s2 rest h
    simp only [StatsGame.DoGame.loop] at h
    rcases IsEnded_total s.playField with he | he
    · rw [he] at h
      simp only [Except.ok.injEq, Prod.mk.injEq] at h
      obtain ⟨rfl, rfl⟩ := h
      exact ⟨0, Rounds.zero _, he, rfl, Nat.zero_le _, fun h => h⟩
    · rw [he] at h
      simp only at h
      by_cases hlt : s.runde < INT_MAX
      · rw [if_pos hlt] at h
        cases hr : DoRound I s.playField rs with
        | error e => simp [hr] at h
        | ok r =>
          obtain ⟨p1, rest1⟩ := r
          rw [hr] at h
          obtain ⟨k, hk, hend, hrun, hle, hmax⟩ := ih ⟨p1, s.runde + 1⟩ rest1 s2 rest h
          refine ⟨k + 1, Rounds.succ k _ _ _ _ _ he hr hk, hend, ?_, by omega,
            fun _ => hmax (by show s.runde + 1 ≤ INT_MAX; omega)⟩
          simp only at hrun
          omega
      · rw [if_neg hlt] at h
        cases h

theorem DoGame_loop_complete (I : Impl) :
    ∀ (k : Nat) (fuel : Nat) (s : StatsGame) (rs : List Nat) (p2 : PlayField) (rest : List Nat),
      Rounds I k (s.playField, rs) (p2, rest) → IsEnded p2 = .ok true →
      s.runde + k ≤ INT_MAX → k ≤ fuel →
      StatsGame.DoGame.loop I fuel s rs = .ok (⟨p2, s.runde + k⟩, rest) := by
  intro k
  induction k with
  | zero =>
    intro fuel s rs p2 rest hk hend _ _
    cases hk
    cases fuel with
    | zero => simp only [StatsGame.DoGame.loop, hend, Nat.add_zero]
    | succ n => simp only [StatsGame.DoGame.loop, hend, Nat.add_zero]
  | succ k ih =>
    intro fuel s rs p2 rest hk hend hround hfuel
    cases hk with
    | succ _ _ _ p1 rs1 _ he hr hk1 =>
      obtain ⟨fuel, rfl⟩ : ∃ m, fuel = m + 1 := ⟨fuel - 1, by omega⟩
      have hlt : s.runde < INT_MAX := by omega
      simp only [StatsGame.DoGame.loop, he, hr, if_pos hlt]
      rw [ih fuel ⟨p1, s.runde + 1⟩ rs1 p2 rest hk1 hend (by simp only; omega) (by omega)]
      simp only [Except.ok.injEq, Prod.mk.injEq, and_true]
      congr 1
      omega

theorem Rounds_functional (I : Impl) :
    ∀ (k : Nat) (s a b : PlayField × List Nat), Rounds I k s a → Rounds I k s b → a = b := by
  intro k
  induction k with
  | zero =>
    intro s a b ha hb
    cases ha
    cases hb
    rfl
  | succ k ih =>
    intro s a b ha hb
    cases ha with
    | succ _ _ _ p1 rs1 _ _ hr1 h1 =>
      cases hb with
      | succ _ _ _ q1 qs1 _ _ hr2 h2 =>
        rw [hr1] at hr2
        simp only [Except.ok.injEq, Prod.mk.injEq] at hr2
        obtain ⟨rfl, rfl⟩ := hr2
        exact ih _ _ _ h1 h2

/-- C17: from the same grid, the same samples and both counters at 0, with
`finished` and `quit` unset.  When `Calc` returns, the loop of
`StatsGame::DoGame` returns on the same budget with the same grid, the same
unread samples and `runde = round`; when the loop of `DoGame` returns, `Calc`
returns with one more iteration, the same grid and `round = runde`.  Both have
made the same `runde` calls of `DoRound`, which the start determines.  On a grid
on which `IsEnded` is true both return at once with the counter at 0.  And
`DoGame` is `InitializeWithRandomColors` followed by that loop. -/
theorem DoGame_loop_agrees_with_Calc (I : Impl) (p : PlayField) (rs : List Nat) :
    (∀ fuel g2 rest n, UIGame.Calc I fuel ⟨0, false, false, p⟩ rs = .ok (g2, rest, n) →
      StatsGame.DoGame.loop I fuel ⟨p, 0⟩ rs = .ok (⟨g2.playField, g2.round⟩, rest) ∧
      Rounds I g2.round (p, rs) (g2.playField, rest)) ∧
    (∀ fuel s2 rest, StatsGame.DoGame.loop I fuel ⟨p, 0⟩ rs = .ok (s2, rest) →
      UIGame.Calc I (fuel + 1) ⟨0, false, false, p⟩ rs
        = .ok (⟨s2.GetRunden, false, true, s2.playField⟩, rest, s2.GetRunden + 1) ∧
      Rounds I s2.GetRunden (p, rs) (s2.playField, rest)) ∧
    (IsEnded p = .ok true → ∀ fuel,
      StatsGame.DoGame.loop I fuel ⟨p, 0⟩ rs = .ok (⟨p, 0⟩, rs) ∧
      UIGame.Calc I (fuel + 1) ⟨0, false, false, p⟩ rs = .ok (⟨0, false, true, p⟩, rs, 1)) ∧
    (∀ k a b, Rounds I k (p, rs) a → Rounds I k (p, rs) b → a = b) ∧
    (∀ fuel rs0, InitializeWithRandomColors I PlayField.new rs0 = .ok (p, rs) →
      StatsGame.DoGame I fuel StatsGame.new rs0 = StatsGame.DoGame.loop I fuel ⟨p, 0⟩ rs) := by
  refine ⟨?_, ?_, ?_, fun k a b => Rounds_functional I k (p, rs) a b, ?_⟩
  rotate_right
  · intro fuel rs0 h
    simp only [StatsGame.DoGame, StatsGame.new, h]
  · intro fuel g2 rest n h
    obtain ⟨k, hk, hend, hround, hn, -, -⟩ :=
      Calc_sound I fuel ⟨0, false, false, p⟩ rs g2 rest n rfl rfl h
    obtain ⟨-, hfuel, hmax⟩ := Calc_steps I fuel ⟨0, false, false, p⟩ rs g2 rest n h
    have hk0 : g2.round = k := by simpa using hround
    have h2 := DoGame_loop_complete I k fuel ⟨p, 0⟩ rs g2.playField rest hk hend
      (by
        have := hmax (Nat.zero_le _)
        show 0 + k ≤ INT_MAX
        omega)
      (by omega)
    rw [h2, hk0]
    exact ⟨by simp, hk⟩
  · intro fuel s2 rest h
    obtain ⟨k, hk, hend, hrun, hle, hmax⟩ := DoGame_loop_sound I fuel ⟨p, 0⟩ rs s2 rest h
    have hk0 : s2.runde = k := by simpa using hrun
    have h2 := Calc_complete I k (fuel + 1) ⟨0, false, false, p⟩ rs s2.playField rest rfl rfl hk
      hend
      (by
        have := hmax (Nat.zero_le _)
        show 0 + k ≤ INT_MAX
        omega)
      (by omega)
    simp only [StatsGame.GetRunden, hk0]
    rw [h2]
    exact ⟨by simp, hk⟩
  · intro hend fuel
    constructor
    · simpa using DoGame_loop_complete I 0 fuel ⟨p, 0⟩ rs p rs (Rounds.zero _) hend (Nat.zero_le _)
        (Nat.zero_le _)
    · simpa using Calc_complete I 0 (fuel + 1) ⟨0, false, false, p⟩ rs p rs rfl rfl
        (Rounds.zero _) hend (Nat.zero_le _) (Nat.succ_pos _)

theorem DoGame_loop_agrees_with_Calc_witness :
    (StatsGame.DoGame.loop Impl.glibc 2 ⟨almostRed, 0⟩ almostSamples
        = .ok (⟨almostResult.playField, almostResult.round⟩, []) ∧
      Rounds Impl.glibc almostResult.round (almostRed, almostSamples)
        (almostResult.playField, [])) ∧
    (StatsGame.DoGame.loop Impl.glibc 0 ⟨uniformRed, 0⟩ [] = .ok (⟨uniformRed, 0⟩, []) ∧
      UIGame.Calc Impl.glibc (0 + 1) ⟨0, false, false, uniformRed⟩ []
        = .ok (⟨0, false, true, uniformRed⟩, [], 1)) ∧
    StatsGame.DoGame Impl.glibc 0 StatsGame.new (sweep 0 100)
      = StatsGame.DoGame.loop Impl.glibc 0 ⟨initialized, 0⟩ [] :=
  ⟨(DoGame_loop_agrees_with_Calc Impl.glibc almostRed almostSamples).1 2 almostResult [] 2
      almostResult_eq,
    (DoGame_loop_agrees_with_Calc Impl.glibc uniformRed []).2.2.1 rfl 0,
    (DoGame_loop_agrees_with_Calc Impl.glibc initialized []).2.2.2.2 0 (sweep 0 100)
      initialized_eq⟩

/-! ## Reaching the end -/

theorem GetRandomOn_eq (I : Impl) (hI : 10 ≤ (I.RAND_MAX + 1) % 2 ^ 32) (r : Nat) :
    GetRandomOn I COLS r = .ok (GetRandomCol I r) ∧
    GetRandomOn I ROWS r = .ok (GetRandomRow I r) := by
  have hb : ¬ (10 = 0 ∨ (I.RAND_MAX + 1) % 2 ^ 32 / 10 = 0) := by
    omega
  constructor
  · simp only [GetRandomOn, GetRandomCol, COLS, if_neg hb]
  · simp only [GetRandomOn, GetRandomRow, ROWS, if_neg hb]

theorem GetFieldOn_eq (p : PlayField) (x y : Nat) :
    GetFieldOn ROWS COLS p.field x y = GetField p x y :=
  rfl

theorem sampleOn_eq (I : Impl) (hI : 10 ≤ (I.RAND_MAX + 1) % 2 ^ 32) (p : PlayField) :
    ∀ rs, InitializeWithRandomColorsOn.sample ROWS COLS I p.field rs
      = InitializeWithRandomColors.sample I p rs := by
  intro rs
  induction rs using InitializeWithRandomColors.sample.induct I p with
  | case1 a b rest e he =>
    simp only [InitializeWithRandomColorsOn.sample, InitializeWithRandomColors.sample,
      (GetRandomOn_eq I hI a).1, (GetRandomOn_eq I hI b).2, GetFieldOn_eq, he]
  | case2 a b rest oldVal hg hne ih =>
    simp only [InitializeWithRandomColorsOn.sample, InitializeWithRandomColors.sample,
      (GetRandomOn_eq I hI a).1, (GetRandomOn_eq I hI b).2, GetFieldOn_eq, hg, if_pos hne]
    exact ih
  | case3 a b rest oldVal hg hne =>
    simp only [InitializeWithRandomColorsOn.sample, InitializeWithRandomColors.sample,
      (GetRandomOn_eq I hI a).1, (GetRandomOn_eq I hI b).2, GetFieldOn_eq, hg, if_neg hne]
  | case4 rs hrs =>
    unfold InitializeWithRandomColorsOn.sample InitializeWithRandomColors.sample
    split
    · exact absurd rfl (hrs _ _ _)
    · rfl

theorem placeOn_eq (I : Impl) (hI : 10 ≤ (I.RAND_MAX + 1) % 2 ^ 32) (c : Color) :
    ∀ (n : Nat) (p : PlayField) (rs : List Nat),
      InitializeWithRandomColorsOn.place ROWS COLS I c n p.field rs
        = match InitializeWithRandomColors.place I c n p rs with
          | .ok (p1, rest) => .ok (p1.field, rest)
          | .error e => .error e := by
  intro n
  induction n with
  | zero => exact fun _ _ => rfl
  | succ n ih =>
    intro p rs
    simp only [InitializeWithRandomColorsOn.place, InitializeWithRandomColors.place,
      sampleOn_eq I hI p rs]
    cases hs : InitializeWithRandomColors.sample I p rs with
    | error e => rfl
    | ok r =>
      obtain ⟨x, y, rest⟩ := r
      simp only
      by_cases hi : x + y * COLS < ROWS * COLS
      · simp only [SetFieldOn, SetField, dif_pos hi]
        exact ih ⟨Function.update p.field ⟨x + y * COLS, hi⟩ c⟩ rest
      · simp only [SetFieldOn, SetField, dif_neg hi]

theorem colorsOn_eq (I : Impl) (hI : 10 ≤ (I.RAND_MAX + 1) % 2 ^ 32) :
    ∀ (cs : List Color) (p : PlayField) (rs : List Nat),
      InitializeWithRandomColorsOn.colors ROWS COLS I cs p.field rs
        = match InitializeWithRandomColors.colors I cs p rs with
          | .ok (p1, rest) => .ok (p1.field, rest)
          | .error e => .error e := by
  intro cs
  induction cs with
  | nil => exact fun _ _ => rfl
  | cons c cs ih =>
    intro p rs
    simp only [InitializeWithRandomColorsOn.colors, InitializeWithRandomColors.colors,
      placeOn_eq I hI c]
    cases hp : InitializeWithRandomColors.place I c (ROWS * COLS / 4) p rs with
    | error e => rfl
    | ok r =>
      obtain ⟨p1, rest⟩ := r
      exact ih p1 rest

/-- With `ROWS` and `COLS` as in main.cpp (and `RAND_MAX + 1u` at least 10),
`InitializeWithRandomColorsOn` is `InitializeWithRandomColors`. -/
theorem InitializeWithRandomColorsOn_eq (I : Impl) (hI : 10 ≤ (I.RAND_MAX + 1) % 2 ^ 32)
    (p : PlayField) (rs : List Nat) :
    InitializeWithRandomColorsOn ROWS COLS I p.field rs
      = match InitializeWithRandomColors I p rs with
        | .ok (p1, rest) => .ok (p1.field, rest)
        | .error e => .error e :=
  colorsOn_eq I hI _ p rs

end Darwin
